import Mathlib

/-!
Verification of the epubrepairtool repository: a shallow embedding of the
repair rule engine (`src/epub_repair`) and the EPUB2→EPUB3 upgrade
(`src/epub_upgrade`), with theorems settling the frozen claims about them.

Conventions of the embedding:
* lxml element trees become the inductive `XNode`: tag, attribute list,
  text (text before the first child), tail (text after the element) and
  children.  Python object identity is modelled by a numeric node id;
  mutation through a live reference becomes an id-directed update of the
  tree.  `None` text is identified with `""` (the source only ever reads
  text through `(x.text or "")` or truthiness, where both behave alike).
* Files on disk are represented by their parsed content (the parse and
  serialize collaborators of spec section 6 are treated as inverse).
* Counters and the change log reproduce `reporting.Reporter`.
-/

namespace EpubRepair

/-- Whether the first character list starts the second. -/
def charsLeadWith : List Char → List Char → Bool
  | [], _ => true
  | _ :: _, [] => false
  | n :: ns, h :: hs => n = h && charsLeadWith ns hs

/-- Whether the first character list occurs inside the second. -/
def charsContain (needle hay : List Char) : Bool :=
  match hay with
  | [] => needle.isEmpty
  | _ :: hs => charsLeadWith needle hay || charsContain needle hs

/-- Substring test, the embedding of the Python `in` operator on strings. -/
def strContains (hay needle : String) : Bool :=
  charsContain needle.toList hay.toList

/-- One step list of `str.replace`: replace every non-overlapping
occurrence of `pat` (never empty where this is used), scanning left to
right.  The fuel starts at the character count and every step consumes at
least one character. -/
def replaceCharsFuel (pat rep : List Char) : Nat → List Char → List Char
  | _, [] => []
  | 0, l => l
  | fuel + 1, c :: cs =>
    if charsLeadWith pat (c :: cs) then
      rep ++ replaceCharsFuel pat rep fuel ((c :: cs).drop pat.length)
    else c :: replaceCharsFuel pat rep fuel cs

/-- Embedding of Python `str.replace(pat, rep)` (all occurrences). -/
def pyReplace (s pat rep : String) : String :=
  String.mk (replaceCharsFuel pat.toList rep.toList s.toList.length s.toList)

/-- Embedding of Python `str.split(".")` restricted to the dot separator
(what the line-height number check needs). -/
def splitDotGo (acc : List Char) : List Char → List (List Char)
  | [] => [acc.reverse]
  | c :: cs => if c = '.' then acc.reverse :: splitDotGo [] cs else splitDotGo (c :: acc) cs

/-- The pieces of a string between its dots. -/
def pySplitDot (s : String) : List String :=
  (splitDotGo [] s.toList).map String.mk

/-- Embedding of Python `str.strip()` (whitespace at both ends). -/
def pyStrip (s : String) : String :=
  String.mk (((s.toList.dropWhile Char.isWhitespace).reverse.dropWhile
    Char.isWhitespace).reverse)

/-- Lowercase one character (the sources only ever lowercase ASCII). -/
def lowerChar (c : Char) : Char :=
  if 65 ≤ c.toNat && c.toNat ≤ 90 then Char.ofNat (c.toNat + 32) else c

/-- Embedding of Python `str.lower()`. -/
def pyLower (s : String) : String :=
  String.mk (s.toList.map lowerChar)

/-- Embedding of Python `str.isdigit()` restricted to the characters the
css cleanup can meet (ASCII); a non-ASCII digit would make `float(...)`
raise, which ends in the same `False` result as failing this test. -/
def pyIsDigit (s : String) : Bool :=
  !s.isEmpty && s.toList.all Char.isDigit

/-- Digits of a string read as a natural number (the string is known to be
all digits when this is used). -/
def digitsToNat (s : String) : Nat :=
  s.toList.foldl (fun acc c => 10 * acc + (c.toNat - '0'.toNat)) 0

end EpubRepair

/-! ## Stylesheet model

Modelled from the spec: the CSS tokenizer/serializer is an external
collaborator (spec sections 1 and 6).  Spec section 3 fixes its data model:
"ordered sequence of rules; each rule has a selector token sequence and an
ordered sequence of declarations (property name, raw value token
sequence)".  A declaration is a property name and its raw value text; a
rule is a selector (as serialized text, which is what
`css_cleanup._get_selector_text` computes) and its declaration list.
-/

namespace EpubRepair

/-- A CSS declaration of the stylesheet-engine interface: property name and
raw value text. -/
structure CssDecl where
  name : String
  value : String
  deriving Repr, DecidableEq

/-- A CSS rule of the stylesheet-engine interface: serialized selector text
plus the ordered declarations (`rule.content`). -/
structure CssRule where
  selector : String
  content : List CssDecl
  deriving Repr, DecidableEq

/-- A parsed stylesheet: ordered rules. -/
abbrev Stylesheet := List CssRule

/-- Embedding of `css_cleanup._is_absolute_size`: the lowercased value text
contains `px` or `pt`. -/
def is_absolute_size (d : CssDecl) : Bool :=
  let v := pyLower d.value
  strContains v "px" || strContains v "pt"

/-- Embedding of `css_cleanup._is_fixed_line_height`.  The source tests
`"px" in v or "pt" in v or (v.replace(".", "").isdigit() and float(v) < 1.2)`
inside a `try` that turns any error into `False`; `float(v)` raises exactly
when the dot-stripped digit test passed but `v` holds more than one dot, so
that case yields `False`.  The numeric comparison is exact (the source
values are short decimal literals, where binary floating point and exact
comparison against 1.2 agree). -/
def is_fixed_line_height (d : CssDecl) : Bool :=
  let v := pyLower d.value
  strContains v "px" || strContains v "pt" ||
    (pyIsDigit (String.mk (v.toList.filter (fun c => c ≠ '.'))) &&
      (match pySplitDot v with
       | [a] => 5 * digitsToNat a < 6
       | [a, b] => 5 * (digitsToNat a * 10 ^ b.length + digitsToNat b) < 6 * 10 ^ b.length
       | _ => false))


/-- Embedding of `css_cleanup._is_flex_or_grid`. -/
def is_flex_or_grid (d : CssDecl) : Bool :=
  let v := pyLower d.value
  strContains v "flex" || strContains v "grid"

/-- Embedding of the tree transformation performed by
`css_cleanup.simplify_css_safe` on one parsed stylesheet: three passes,
each filtering declarations out of rule contents.  (The surrounding file
loop, counters and write-back are part of the pipeline embedding below.) -/
def simplify_css_safe_sheet (rules : Stylesheet) : Stylesheet :=
  -- pass 1: font-size with absolute units, only on rules selecting body/html
  let rules := rules.map fun r =>
    if r.selector = "body" || r.selector = "html" then
      { r with content := r.content.filter fun d => !(d.name = "font-size" && is_absolute_size d) }
    else r
  -- pass 2: fixed line-height, all rules
  let rules := rules.map fun r =>
    { r with content := r.content.filter fun d => !(d.name = "line-height" && is_fixed_line_height d) }
  -- pass 3: display flex/grid, all rules
  rules.map fun r =>
    { r with content := r.content.filter fun d => !(d.name = "display" && is_flex_or_grid d) }

/-- Embedding of the tree transformation performed by
`css_cleanup.simplify_css_aggressive` on one parsed stylesheet: drop every
`font-family` declaration from every rule. -/
def simplify_css_aggressive_sheet (rules : Stylesheet) : Stylesheet :=
  rules.map fun r =>
    { r with content := r.content.filter fun d => !(d.name = "font-family") }

/-- The drop condition of claim C6, written from the spec words: font-size
with an absolute unit is dropped only from rules selecting exactly body or
html; line-height with an absolute unit or a unitless number below 1.2 and
display values containing flex or grid are dropped from all rules. -/
def c6SafeDrops (selector : String) (d : CssDecl) : Bool :=
  ((selector = "body" || selector = "html") && d.name = "font-size" && is_absolute_size d) ||
  (d.name = "line-height" && is_fixed_line_height d) ||
  (d.name = "display" && is_flex_or_grid d)

end EpubRepair

/-! ## Content-document tree model

The embedding of the lxml element tree that `xhtml_parser.parse_xhtml`
hands to the rules.  `nid` models Python object identity: a live reference
held across mutations becomes an id-directed lookup in the current tree.
-/

namespace EpubRepair

/-- An element node: id, tag, ordered attributes, text before the first
child, tail text after the element, and children. -/
inductive XNode : Type where
  | el (nid : Nat) (tag : String) (attrs : List (String × String))
       (text : String) (tail : String) (kids : List XNode)
  deriving Repr

namespace XNode

/-- The identity of a node. -/
def nid : XNode → Nat
  | .el n _ _ _ _ _ => n

/-- The tag of a node. -/
def tag : XNode → String
  | .el _ t _ _ _ _ => t

/-- The attribute list of a node. -/
def attrs : XNode → List (String × String)
  | .el _ _ a _ _ _ => a

/-- The text of a node (text before the first child; `""` models None). -/
def text : XNode → String
  | .el _ _ _ tx _ _ => tx

/-- The tail text of a node. -/
def tail : XNode → String
  | .el _ _ _ _ tl _ => tl

/-- The children of a node. -/
def kids : XNode → List XNode
  | .el _ _ _ _ _ ks => ks

/-- Embedding of `element.get(name, "")`. -/
def attrD (n : XNode) (name : String) : String :=
  ((n.attrs.lookup name).getD "")

/-- Whether the attribute is present at all (`name in element.attrib`). -/
def hasAttr (n : XNode) (name : String) : Bool :=
  (n.attrs.lookup name).isSome

/-- Embedding of `element.set(name, value)`: replace in place, else append. -/
def setAttrList (a : List (String × String)) (name v : String) : List (String × String) :=
  if a.any (fun kv => kv.1 = name) then
    a.map (fun kv => if kv.1 = name then (name, v) else kv)
  else a ++ [(name, v)]

/-- Embedding of `element.attrib.pop(name, None)`. -/
def popAttrList (a : List (String × String)) (name : String) : List (String × String) :=
  a.filter (fun kv => kv.1 ≠ name)

mutual
/-- All nodes of the tree in document (preorder) order. -/
def allNodes : XNode → List XNode
  | .el n t a tx tl ks => .el n t a tx tl ks :: allNodesL ks
/-- All nodes of a forest in document order. -/
def allNodesL : List XNode → List XNode
  | [] => []
  | k :: ks => allNodes k ++ allNodesL ks
end

mutual
/-- Whether a node with the given id occurs in the tree. -/
def occurs (i : Nat) : XNode → Bool
  | .el n _ _ _ _ ks => n = i || occursL i ks
/-- Whether a node with the given id occurs in the forest. -/
def occursL (i : Nat) : List XNode → Bool
  | [] => false
  | k :: ks => occurs i k || occursL i ks
end

mutual
/-- The first node with the given id, in document order (a live Python
reference resolved against the current tree). -/
def getById (i : Nat) : XNode → Option XNode
  | .el n t a tx tl ks =>
    if n = i then some (.el n t a tx tl ks) else getByIdL i ks
/-- Lookup over a forest. -/
def getByIdL (i : Nat) : List XNode → Option XNode
  | [] => none
  | k :: ks => (getById i k).orElse fun _ => getByIdL i ks
end

mutual
/-- Embedding of `node.getparent()`: the parent of the node with the given
id; `none` both for the root and for an id no longer in the tree (a
detached element). -/
def parentOf (i : Nat) : XNode → Option XNode
  | .el n t a tx tl ks =>
    if ks.any (fun k => k.nid = i) then some (.el n t a tx tl ks)
    else parentOfL i ks
/-- Parent search over a forest. -/
def parentOfL (i : Nat) : List XNode → Option XNode
  | [] => none
  | k :: ks => (parentOf i k).orElse fun _ => parentOfL i ks
end

/-- Embedding of `node.getnext()`: the sibling right after the node. -/
def nextSibOf (i : Nat) (t : XNode) : Option XNode :=
  match parentOf i t with
  | none => none
  | some par =>
    match par.kids.findIdx? (fun k => k.nid = i) with
    | none => none
    | some j => par.kids.get? (j + 1)

/-- Index of a child id inside a parent node (`parent.index(child)` /
`list(parent).index(child)`). -/
def childIdx (par : XNode) (i : Nat) : Option Nat :=
  par.kids.findIdx? (fun k => k.nid = i)

mutual
/-- Apply an update to the node with the given id, wherever it sits. -/
def mapNode (i : Nat) (f : XNode → XNode) : XNode → XNode
  | .el n t a tx tl ks =>
    if n = i then f (.el n t a tx tl ks) else .el n t a tx tl (mapNodeL i f ks)
/-- `mapNode` over a forest. -/
def mapNodeL (i : Nat) (f : XNode → XNode) : List XNode → List XNode
  | [] => []
  | k :: ks => mapNode i f k :: mapNodeL i f ks
end

mutual
/-- Embedding of removing the node with the given id from its parent
(`parent.remove(node)` where `parent` is the node's actual parent): the
node and its whole subtree leave the tree; the root is never erased. -/
def eraseId (i : Nat) : XNode → XNode
  | .el n t a tx tl ks => .el n t a tx tl (eraseIdL i ks)
/-- `eraseId` over a forest. -/
def eraseIdL (i : Nat) : List XNode → List XNode
  | [] => []
  | k :: ks => if k.nid = i then eraseIdL i ks else eraseId i k :: eraseIdL i ks
end

mutual
/-- Embedding of `parent.replace(old, new)`: the new node takes the old
node's position; the old subtree leaves the tree. -/
def replaceId (i : Nat) (r : XNode) : XNode → XNode
  | .el n t a tx tl ks => .el n t a tx tl (replaceIdL i r ks)
/-- `replaceId` over a forest. -/
def replaceIdL (i : Nat) (r : XNode) : List XNode → List XNode
  | [] => []
  | k :: ks => if k.nid = i then r :: replaceIdL i r ks else replaceId i r k :: replaceIdL i r ks
end

/-- Embedding of `parent.insert(idx, node)` directed at the parent with id
`pid` (Python list-insert semantics: the index is clamped). -/
def insertAt (pid : Nat) (idx : Nat) (node : XNode) (t : XNode) : XNode :=
  mapNode pid (fun p => .el p.nid p.tag p.attrs p.text p.tail
    (p.kids.take idx ++ [node] ++ p.kids.drop idx)) t

/-- Insert a node directly before the child with id `sid` of the parent
with id `pid` (the placement step of `sibling.addprevious(node)`). -/
def insertBefore (pid sid : Nat) (node : XNode) (t : XNode) : XNode :=
  mapNode pid (fun p =>
    match childIdx p sid with
    | none => p
    | some j => .el p.nid p.tag p.attrs p.text p.tail
        (p.kids.take j ++ [node] ++ p.kids.drop j)) t

mutual
/-- The largest id in the tree (fresh ids for newly created elements are
allocated above it). -/
def maxId : XNode → Nat
  | .el n _ _ _ _ ks => max n (maxIdL ks)
/-- `maxId` over a forest. -/
def maxIdL : List XNode → Nat
  | [] => 0
  | k :: ks => max (maxId k) (maxIdL ks)
end

/-- The nodes selected by a predicate, in document order (the common shape
of the `tree.xpath` queries used by the rules). -/
def findAll (p : XNode → Bool) (t : XNode) : List XNode :=
  (allNodes t).filter p

end XNode

end EpubRepair

/-! ## Book structure, reporter and disk state -/

namespace EpubRepair

/-- Embedding of `models.SpineItem` (idref plus resolved href). -/
structure SpineItem where
  idref : String
  href : String
  deriving Repr, DecidableEq

/-- Embedding of `models.ManifestItem`. -/
structure ManifestItem where
  id : String
  href : String
  media_type : String
  deriving Repr, DecidableEq

/-- Embedding of `models.EpubBook`: the spine in order and the manifest as
an insertion-ordered id-keyed mapping (`Dict[str, ManifestItem]`). -/
structure EpubBook where
  spine_items : List SpineItem
  manifest_items : List (String × ManifestItem)
  deriving Repr, DecidableEq

/-- Embedding of `EpubBook.get_xhtml_files`: spine items, in order, whose
idref resolves to a manifest item of media type `application/xhtml+xml`. -/
def EpubBook.get_xhtml_files (b : EpubBook) : List String :=
  b.spine_items.foldl (fun acc s =>
    match b.manifest_items.lookup s.idref with
    | some m => if m.media_type = "application/xhtml+xml" then acc ++ [s.href] else acc
    | none => acc) []

/-- Embedding of `EpubBook.get_css_files`: manifest items of media type
`text/css`, in manifest order (path resolution is collapsed to the href). -/
def EpubBook.get_css_files (b : EpubBook) : List String :=
  b.manifest_items.foldl (fun acc kv =>
    if kv.2.media_type = "text/css" then acc ++ [kv.2.href] else acc) []

/-- Embedding of `reporting.Reporter`: counters as an insertion-ordered
category-to-count mapping, changes as the ordered list of
(file, description) records. -/
structure Reporter where
  counters : List (String × Nat)
  changes : List (String × String)
  deriving Repr, DecidableEq

/-- The reporter constructed at the start of a run. -/
def Reporter.empty : Reporter := ⟨[], []⟩

/-- Embedding of `Reporter.increment`:
`counters[category] = counters.get(category, 0) + count`. -/
def Reporter.increment (r : Reporter) (category : String) (count : Nat) : Reporter :=
  if r.counters.any (fun kv => kv.1 = category) then
    { r with counters :=
        r.counters.map fun kv => if kv.1 = category then (kv.1, kv.2 + count) else kv }
  else
    { r with counters := r.counters ++ [(category, count)] }

/-- Embedding of `Reporter.log_change`. -/
def Reporter.log_change (r : Reporter) (file description : String) : Reporter :=
  { r with changes := r.changes ++ [(file, description)] }

/-- The value of a counter (0 when the category was never incremented). -/
def Reporter.counterGet (r : Reporter) (category : String) : Nat :=
  (r.counters.lookup category).getD 0

/-- The parsed content of a file on disk: a content document or a
stylesheet (the parse/serialize collaborators are treated as inverse, so a
file is represented by its tree). -/
inductive FileContent : Type where
  | xhtml (doc : XNode)
  | css (sheet : Stylesheet)
  deriving Repr

/-- The extracted package directory: files keyed by path, plus the ordered
trace of write-backs performed by the rules (`path.write_text`). -/
structure Disk where
  files : List (String × FileContent)
  writes : List String
  deriving Repr

/-- Read a content document (`parse_xhtml` after the `exists()` check). -/
def Disk.readXhtml (d : Disk) (path : String) : Option XNode :=
  match d.files.lookup path with
  | some (.xhtml doc) => some doc
  | _ => none

/-- Read a stylesheet. -/
def Disk.readCss (d : Disk) (path : String) : Option Stylesheet :=
  match d.files.lookup path with
  | some (.css sheet) => some sheet
  | _ => none

/-- Embedding of `xhtml_path.write_text(serialize_xhtml(tree))`. -/
def Disk.writeXhtml (d : Disk) (path : String) (doc : XNode) : Disk :=
  { files := d.files.map (fun kv => if kv.1 = path then (path, .xhtml doc) else kv),
    writes := d.writes ++ [path] }

/-- Embedding of `css_path.write_text(serialize_css(rules))`. -/
def Disk.writeCss (d : Disk) (path : String) (sheet : Stylesheet) : Disk :=
  { files := d.files.map (fun kv => if kv.1 = path then (path, .css sheet) else kv),
    writes := d.writes ++ [path] }

/-- A repair rule of the pipeline: it reads and mutates files of the book
and reports counters and changes (`(book, reporter) -> None` in the
source, with the file system made explicit). -/
abbrev Rule := EpubBook → Disk × Reporter → Disk × Reporter

end EpubRepair

/-! ## Specialized xpath queries used by the rules -/

namespace EpubRepair

namespace XNode

/-- Tags counted as headings by the nested-heading query. -/
def isHeadingTag (s : String) : Bool :=
  s = "h1" || s = "h2" || s = "h3" || s = "h4" || s = "h5" || s = "h6"

mutual
/-- Embedding of the query `//p//h1 | ... | //p//h6`: heading elements with
a proper `p` ancestor, in document order; `underP` records whether an
ancestor so far was a `p`. -/
def nestedHeads (underP : Bool) : XNode → List XNode
  | .el n t a tx tl ks =>
    (if underP && isHeadingTag t then [.el n t a tx tl ks] else []) ++
      nestedHeadsL (underP || t = "p") ks
/-- `nestedHeads` over a forest. -/
def nestedHeadsL (underP : Bool) : List XNode → List XNode
  | [] => []
  | k :: ks => nestedHeads underP k ++ nestedHeadsL underP ks
end

mutual
/-- Embedding of the query `//br/following-sibling::br`: line-break
elements that have an earlier line-break sibling, in document order. -/
def brAfterBr : XNode → List XNode
  | .el _ _ _ _ _ ks => brAfterBrL false ks
/-- Walk a sibling list; `seen` records whether an earlier sibling was a
line break. -/
def brAfterBrL (seen : Bool) : List XNode → List XNode
  | [] => []
  | k :: ks =>
    (if k.tag = "br" && seen then [k] else []) ++ brAfterBr k ++
      brAfterBrL (seen || k.tag = "br") ks
end

mutual
/-- Embedding of the query `//br[count(following-sibling::br) >= 2]`:
line breaks with at least two later line-break siblings, in document
order. -/
def brManyFollowing : XNode → List XNode
  | .el _ _ _ _ _ ks => brManyFollowingL ks
/-- `brManyFollowing` over a sibling list. -/
def brManyFollowingL : List XNode → List XNode
  | [] => []
  | k :: ks =>
    (if k.tag = "br" && (ks.filter (fun s => s.tag = "br")).length ≥ 2 then [k] else []) ++
      brManyFollowing k ++ brManyFollowingL ks
end

mutual
/-- Embedding of the query `//p/br[last()]`: the last line-break child of
every paragraph.  The per-node removals these feed are independent, so the
exact interleaving of the returned list is not observable. -/
def trailingBrs : XNode → List XNode
  | .el _ t _ _ _ ks =>
    (if t = "p" then ((ks.filter (fun k => k.tag = "br")).getLast?).toList else []) ++
      trailingBrsL ks
/-- `trailingBrs` over a forest. -/
def trailingBrsL : List XNode → List XNode
  | [] => []
  | k :: ks => trailingBrs k ++ trailingBrsL ks
end

/-- Embedding of the div query of `normalize_paragraphs_and_indents`:
`//div[not(div) and not(p) and (text() or span or em or strong)]`.  The
`text()` test is true when the element owns a text node: a non-empty text
or a child with a non-empty tail. -/
def divQualifies (n : XNode) : Bool :=
  n.tag = "div" &&
  !(n.kids.any (fun k => k.tag = "div")) &&
  !(n.kids.any (fun k => k.tag = "p")) &&
  (n.text ≠ "" || n.kids.any (fun k => k.tail ≠ "") ||
    n.kids.any (fun k => k.tag = "span" || k.tag = "em" || k.tag = "strong"))

/-- Update the attributes of a node in place. -/
def withAttrs (f : List (String × String) → List (String × String)) : XNode → XNode
  | .el n t a tx tl ks => .el n t (f a) tx tl ks

/-- Rename the tag of a node in place (`div.tag = "p"`). -/
def withTag (t' : String) : XNode → XNode
  | .el n _ a tx tl ks => .el n t' a tx tl ks

end XNode

end EpubRepair

/-! ## Heading normalizer (`rules/headings.py`) -/

namespace EpubRepair

open XNode

/-- Embedding of `headings._determine_heading_level`. -/
def determine_heading_level (e : XNode) : Nat :=
  let classes := pyLower (attrD e "class")
  if strContains classes "heading1" || strContains classes "h1" || strContains classes "title" then 1
  else if strContains classes "heading2" || strContains classes "h2" || strContains classes "chapter" then 2
  else if strContains classes "heading3" || strContains classes "h3" || strContains classes "section" then 3
  else 2

/-- The heading element built by `headings._convert_to_heading`: text
copied, every child moved across in order (the lxml child iterator
prefetches the next sibling, so moving the yielded child never skips), the
tail of a moved child with non-empty tail appended once more onto itself
(`heading[-1]` is the child just moved, so the source doubles its tail),
and every attribute kept except a `class` whose value contains
`heading`. -/
def convert_to_heading_node (freshId : Nat) (e : XNode) (level : Nat) : XNode :=
  .el freshId ("h" ++ toString level)
    (e.attrs.filter fun kv => kv.1 ≠ "class" || !strContains (pyLower kv.2) "heading")
    e.text ""
    (e.kids.map fun c => if c.tail ≠ "" then
        .el c.nid c.tag c.attrs c.text (c.tail ++ c.tail) c.kids
      else c)

/-- Embedding of `headings._convert_to_heading` acting on the tree: build
the heading from the live element and replace the element at its position
(`parent.replace`); nothing happens when the element has no parent. -/
def convert_to_heading (t : XNode) (freshId eid : Nat) (level : Nat) : XNode :=
  match getById eid t with
  | none => t
  | some e =>
    match parentOf eid t with
    | some _ => replaceId eid (convert_to_heading_node freshId e level) t
    | none => t

/-- One keyword pass of `normalize_headings`: query
`//p[contains(@class, kw)]`, then convert every matched element, counting
each conversion. -/
def headingsPatternPass (kw : String) (st : XNode × Nat × Nat) : XNode × Nat × Nat :=
  let ids := (findAll (fun n => n.tag = "p" && strContains (attrD n "class") kw) st.1).map nid
  ids.foldl (fun st eid =>
    match st with
    | (t, fresh, cnt) =>
      match getById eid t with
      | none => (t, fresh, cnt)
      | some e =>
        let lvl := determine_heading_level e
        (convert_to_heading t fresh eid lvl, fresh + 1, cnt + 1)) st

/-- The nested-heading pass of `normalize_headings`: move each heading
found inside a paragraph to just before that paragraph
(`parent.addprevious(heading)`), then delete the paragraph when it became
empty; count each fix. -/
def headingsNestedPass (t0 : XNode) (fixes0 : Nat) : XNode × Nat :=
  let ids := (nestedHeads false t0).map nid
  ids.foldl (fun st hid =>
    match st with
    | (t, fx) =>
      match parentOf hid t with
      | none => (t, fx)
      | some par =>
        if par.tag = "p" then
          match getById hid t, parentOf par.nid t with
          | some hnode, some gp =>
            let t := eraseId hid t
            let t := insertBefore gp.nid par.nid hnode t
            let t :=
              match getById par.nid t with
              | some par2 =>
                if par2.text = "" && par2.kids.isEmpty then
                  match parentOf par.nid t with
                  | some _ => eraseId par.nid t
                  | none => t
                else t
              | none => t
            (t, fx + 1)
          | _, _ => (t, fx)
        else (t, fx)) (t0, fixes0)

/-- Embedding of `headings.normalize_headings`: both passes over every
content document; conversion and nesting counters accumulate across files
(they are locals of the whole rule in the source), and the write-back
condition tests those accumulated counters. -/
def normalize_headings : Rule := fun book s =>
  let step := fun acc path =>
    match acc with
    | (d, r, conv, fx) =>
      match Disk.readXhtml d path with
      | none => (d, Reporter.log_change r path "File not found, skipping", conv, fx)
      | some tree =>
        let fresh := maxId tree + 1
        let st := (["heading", "chapter", "section", "title"]).foldl
          (fun s kw => headingsPatternPass kw s) (tree, fresh, conv)
        match st with
        | (t1, _, conv2) =>
          let nst := headingsNestedPass t1 fx
          match nst with
          | (t2, fx2) =>
            if conv2 > 0 || fx2 > 0 then
              (Disk.writeXhtml d path t2,
               Reporter.log_change r path
                 ("Converted " ++ toString conv2 ++ " fake headings, fixed " ++
                   toString fx2 ++ " nesting issues"),
               conv2, fx2)
            else (d, r, conv2, fx2)
  match book.get_xhtml_files.foldl step (s.1, s.2, 0, 0) with
  | (d, r, conv, fx) =>
    (d, Reporter.increment (Reporter.increment r "headings.converted_fake_headings" conv)
          "headings.fixed_nesting" fx)

end EpubRepair

/-! ## Paragraph/div normalizer (`rules/paragraphs.py`) -/

namespace EpubRepair

open XNode

/-- Embedding of `paragraphs.normalize_paragraphs_and_indents`: rename
qualifying divs to paragraphs, remove every line break with an earlier
line-break sibling, remove the last line-break child of every paragraph;
div and line-break counters accumulate across files, the written change
strings quote them. -/
def normalize_paragraphs_and_indents : Rule := fun book s =>
  let step := fun acc path =>
    match acc with
    | (d, r, divs, brs) =>
      match Disk.readXhtml d path with
      | none => (d, r, divs, brs)
      | some tree =>
        -- divs to paragraphs (query snapshot, then rename)
        let divIds := (findAll divQualifies tree).map nid
        let t1 := divIds.foldl (fun t i => mapNode i (withTag "p") t) tree
        let divs1 := divs + divIds.length
        let changed1 := !divIds.isEmpty
        -- remove line breaks that follow a line break among their siblings
        let brIds1 := (brAfterBr t1).map nid
        let st2 := brIds1.foldl (fun st i =>
          match st with
          | (t, c) =>
            match parentOf i t with
            | some _ => (eraseId i t, c + 1)
            | none => (t, c)) (t1, 0)
        -- remove the trailing line break of paragraphs
        let brIds2 := (trailingBrs st2.1).map nid
        let st3 := brIds2.foldl (fun st i =>
          match st with
          | (t, c) =>
            match parentOf i t with
            | some _ => (eraseId i t, c + 1)
            | none => (t, c)) (st2.1, st2.2)
        let brs1 := brs + st3.2
        let changed := changed1 || st3.2 > 0
        if changed then
          (Disk.writeXhtml d path st3.1,
           Reporter.log_change r path
             ("Converted " ++ toString divs1 ++ " divs, removed " ++
               toString brs1 ++ " <br/> tags"),
           divs1, brs1)
        else (d, r, divs1, brs1)
  match book.get_xhtml_files.foldl step (s.1, s.2, 0, 0) with
  | (d, r, divs, brs) =>
    (d, Reporter.increment (Reporter.increment r "paragraphs.converted_divs" divs)
          "paragraphs.removed_br_breaks" brs)

end EpubRepair

/-! ## List normalizer (`rules/lists.py`) -/

namespace EpubRepair

open XNode

/-- Embedding of the match of `^[-•*]\s+` against the stripped leading
text. -/
def unordered_match (s : String) : Bool :=
  match s.toList with
  | c0 :: c1 :: _ => (c0 = '-' || c0 = '•' || c0 = '*') && c1.isWhitespace
  | _ => false

/-- Embedding of `re.sub(r'^[-•*]\s+', '', text)`. -/
def unordered_strip (s : String) : String :=
  if unordered_match s then
    String.mk ((s.toList.drop 1).dropWhile Char.isWhitespace)
  else s

/-- Embedding of the match of `^\d+\.\s+` against the stripped leading
text. -/
def ordered_match (s : String) : Bool :=
  let cs := s.toList
  let ds := cs.takeWhile Char.isDigit
  !ds.isEmpty &&
    (match cs.drop ds.length with
     | '.' :: c :: _ => c.isWhitespace
     | _ => false)

/-- Embedding of `re.sub(r'^\d+\.\s+', '', text)`. -/
def ordered_strip (s : String) : String :=
  if ordered_match s then
    String.mk (((s.toList.dropWhile Char.isDigit).drop 1).dropWhile Char.isWhitespace)
  else s

/-- The greedy run collection of `normalize_lists`: immediately following
snapshot paragraphs whose stripped text matches the kind of the first
paragraph (`is_ordered` fixed at run start). -/
def collectRun (isO : Bool) : List XNode → List XNode
  | [] => []
  | q :: qs =>
    let tq := pyStrip q.text
    if (!isO && unordered_match tq) || (isO && ordered_match tq) then
      q :: collectRun isO qs
    else []

/-- The list item built from a source paragraph: marker prefix stripped
from the stripped leading text, children moved across in order. -/
def buildLi (liId : Nat) (isO : Bool) (p : XNode) : XNode :=
  let txt := pyStrip p.text
  .el liId "li" [] (if isO then ordered_strip txt else unordered_strip txt) "" p.kids

/-- The scan loop of `normalize_lists` over the paragraph snapshot: on a
match, collect the run, build the list element, remove every source
paragraph, then try to insert the list element at the first paragraph's
position — its parent reference, taken after the removals, so the live
first paragraph is already detached (see claim C2). -/
def listsGo : Nat → List XNode → XNode → Nat → Nat → XNode × Nat × Nat
  | _, [], t, fresh, cnt => (t, fresh, cnt)
  | 0, _, t, fresh, cnt => (t, fresh, cnt)
  | fuel + 1, p :: rest, t, fresh, cnt =>
    let txt := pyStrip p.text
    let isU := unordered_match txt
    let isO := ordered_match txt
    if isU || isO then
      let run := collectRun isO (p :: rest)
      let lis := run.enum.map fun iq => buildLi (fresh + 1 + iq.1) isO iq.2
      let listElem := XNode.el fresh (if isO then "ol" else "ul") [] "" "" lis
      let t := run.foldl (fun t q =>
        match parentOf q.nid t with
        | some _ => eraseId q.nid t
        | none => t) t
      let t :=
        match run.head? with
        | some firstP =>
          (match parentOf firstP.nid t with
           | some par =>
             insertAt par.nid ((childIdx par firstP.nid).getD par.kids.length) listElem t
           | none => t)
        | none => t
      listsGo fuel (rest.drop (run.length - 1)) t (fresh + 1 + run.length) (cnt + 1)
    else listsGo fuel rest t fresh cnt

/-- Embedding of `lists.normalize_lists`: the list counter accumulates
across files and the write-back condition tests the accumulated value. -/
def normalize_lists : Rule := fun book s =>
  let step := fun acc path =>
    match acc with
    | (d, r, cnt) =>
      match Disk.readXhtml d path with
      | none => (d, r, cnt)
      | some tree =>
        let ps := findAll (fun n => n.tag = "p") tree
        match listsGo ps.length ps tree (maxId tree + 1) cnt with
        | (t1, _, cnt1) =>
          if cnt1 > 0 then
            (Disk.writeXhtml d path t1,
             Reporter.log_change r path
               ("Created " ++ toString cnt1 ++ " semantic lists"),
             cnt1)
          else (d, r, cnt1)
  match book.get_xhtml_files.foldl step (s.1, s.2, 0) with
  | (d, r, cnt) => (d, Reporter.increment r "lists.converted_paragraphs" cnt)

end EpubRepair

/-! ## Break classifier (`rules/breaks.py`) -/

namespace EpubRepair

open XNode

/-- The chapter keyword test of the break classifier. -/
def kwAny (s : String) : Bool :=
  strContains s "chapter" || strContains s "part" || strContains s "book"

/-- The page-break candidate test of pass 1 of `normalize_context_breaks`:
an empty paragraph (no text, no children), a page-break class, or a
page-break token inside the style attribute. -/
def is_page_break_candidate (p : XNode) : Bool :=
  (pyStrip p.text = "" && p.kids.isEmpty) ||
  (let c := pyLower (attrD p "class")
   c = "page-break" || c = "pagebreak" || c = "break") ||
  (let st := pyLower (attrD p "style")
   strContains st "page-break" || strContains st "pagebreak")

/-- The decision of pass 1 of `normalize_context_breaks` for the `i`-th
paragraph of the `//p` snapshot: `true` when the paragraph is collected
for removal.  The structure mirrors the source: the candidate test, the
next-sibling chapter-keyword test with its early-in-document (`i < 3`)
fallback, then the first-three-children-of-the-parent fallback. -/
def pass1Decision (t : XNode) (i : Nat) (p : XNode) : Bool :=
  if is_page_break_candidate p then
    let nextSib := nextSibOf p.nid t
    let ibc1 :=
      match nextSib with
      | some n =>
        if n.tag = "h1" || n.tag = "h2" then
          if kwAny (pyLower (pyStrip n.text)) then true
          else if i < 3 then true
          else false
        else false
      | none => false
    let ibc2 :=
      if ibc1 then ibc1
      else
        match parentOf p.nid t with
        | some par =>
          (match childIdx par p.nid with
           | some pidx =>
             if pidx < 3 &&
                 (match nextSib with
                  | some n => n.tag = "h1" || n.tag = "h2"
                  | none => false) then true
             else ibc1
           | none => ibc1)
        | none => ibc1
    !ibc2
  else false

/-- Pass 1 of `normalize_context_breaks`: collect the paragraphs to
remove, then remove each from its parent, counting removals. -/
def breaksPass1 (t : XNode) : XNode × Nat × Bool :=
  let ps := findAll (fun n => n.tag = "p") t
  let toRemove := ps.enum.foldl
    (fun acc ip => if pass1Decision t ip.1 ip.2 then acc ++ [ip.2] else acc) []
  toRemove.foldl (fun st p =>
    match st with
    | (t, c, ch) =>
      match parentOf p.nid t with
      | some _ => (eraseId p.nid t, c + 1, true)
      | none => (t, c, ch)) (t, 0, false)

/-- The emptiness test of pass 2 (no text, no children), evaluated on the
snapshot value of a paragraph (its own fields are not mutated between the
snapshot and the test). -/
def isEmptyPara (q : XNode) : Bool :=
  pyStrip q.text = "" && q.kids.isEmpty

/-- Removal from a fixed parent reference, `parent.remove(child)`:
`ValueError` — the error case — when the child is not currently a child
of that parent. -/
def removeFromParent (pid cid : Nat) (t : XNode) : Except Unit XNode :=
  match getById pid t with
  | none => Except.error ()
  | some par =>
    if par.kids.any (fun k => k.nid = cid) then Except.ok (eraseId cid t)
    else Except.error ()

/-- Pass 2 of `normalize_context_breaks` over the fresh `//p` snapshot:
maximal runs of (snapshot-)consecutive empty paragraphs of length at least
two are removed — every member from the parent of the run's first member,
which raises when a member lives under a different parent — and a
`scene-break` horizontal rule is inserted at the index the run start had
in the flat snapshot.  After a run (or a single non-empty paragraph) one
snapshot entry is skipped unexamined (`i += 1`).  The error value carries
the scene-break count reached before the failing removal. -/
def breaksPass2Loop : Nat → List XNode → Nat → XNode → Nat → Nat → Bool →
    Except Nat (XNode × Nat × Nat × Bool)
  | _, [], _, t, fresh, sc, ch => Except.ok (t, fresh, sc, ch)
  | 0, _, _, t, fresh, sc, ch => Except.ok (t, fresh, sc, ch)
  | fuel + 1, p :: rest, idx, t, fresh, sc, ch =>
    let run := (p :: rest).takeWhile isEmptyPara
    let k := run.length
    let stepRes : Except Nat (XNode × Nat × Nat × Bool) :=
      if k ≥ 2 then
        let hr := XNode.el fresh "hr" [("class", "scene-break")] "" "" []
        match run with
        | [] => Except.ok (t, fresh + 1, sc, ch)
        | r0 :: _ =>
          match parentOf r0.nid t with
          | none => Except.ok (t, fresh + 1, sc, ch)
          | some par =>
            match run.foldlM (fun t q => removeFromParent par.nid q.nid t) t with
            | Except.error _ => Except.error sc
            | Except.ok t1 =>
              Except.ok (insertAt par.nid idx hr t1, fresh + 1, sc + 1, true)
      else Except.ok (t, fresh, sc, ch)
    match stepRes with
    | Except.error e => Except.error e
    | Except.ok (t1, fresh1, sc1, ch1) =>
      -- continue after the run, skipping one further snapshot entry
      -- (`i += 1`); on an exhausted snapshot the recursion returns the
      -- state unchanged, as the source loop does.  The fuel starts at the
      -- snapshot length and every step consumes at least one entry, so it
      -- never runs out before the snapshot does.
      breaksPass2Loop fuel ((p :: rest).drop (k + 1)) (idx + k + 1) t1 fresh1 sc1 ch1

/-- Remove up to `n` following siblings of node `i` while they are line
breaks (the bounded removal loops of pass 3). -/
def removeFollowingBrs (i : Nat) : Nat → XNode → XNode
  | 0, t => t
  | n + 1, t =>
    match nextSibOf i t with
    | some nx => if nx.tag = "br" then removeFollowingBrs i n (eraseId nx.nid t) else t
    | none => t

/-- Pass 3 of `normalize_context_breaks`: for each line break with at
least two later line-break siblings (skipping those already detached),
count the consecutive run, test whether the element right after this line
break is a keyword chapter heading, and either replace the run by a
`scene-break` horizontal rule or collapse it to a single line break. -/
def breaksPass3 (t0 : XNode) (fresh0 sc0 pb0 : Nat) (ch0 : Bool) :
    XNode × Nat × Nat × Nat × Bool :=
  let ids := (brManyFollowing t0).map nid
  ids.foldl (fun st bid =>
    match st with
    | (t, fresh, sc, pb, ch) =>
      match parentOf bid t with
      | none => (t, fresh, sc, pb, ch)
      | some par =>
        let j := (childIdx par bid).getD 0
        let after := par.kids.drop (j + 1)
        let brCount := 1 + (after.takeWhile (fun k => k.tag = "br")).length
        let ibc :=
          match after.head? with
          | some n => (n.tag = "h1" || n.tag = "h2") && kwAny (pyLower (pyStrip n.text))
          | none => false
        if brCount ≥ 3 && !ibc then
          let hr := XNode.el fresh "hr" [("class", "scene-break")] "" "" []
          let t := replaceId bid hr t
          (removeFollowingBrs fresh (brCount - 1) t, fresh + 1, sc + 1, pb, true)
        else if brCount ≥ 3 && ibc then
          (removeFollowingBrs bid (brCount - 1) t, fresh, sc, pb + (brCount - 1), true)
        else (t, fresh, sc, pb, ch)) (t0, fresh0, sc0, pb0, ch0)

/-- The inline-style rewriting chain of pass 4 (`str.replace`, all
occurrences, in source order). -/
def stripPageBreakStyle (style : String) : String :=
  pyReplace (pyReplace (pyReplace (pyReplace (pyReplace (pyReplace style
    "page-break-before: always;" "") "page-break-after: always;" "")
    "page-break-before:always;" "") "page-break-after:always;" "")
    "pagebreak: always;" "") "pagebreak:always;" ""

/-- Pass 4 of `normalize_context_breaks`: for every element whose style
attribute contains a page-break token (case-sensitive, as in the xpath),
unless its next sibling is a keyword chapter heading, rewrite the style;
on a change, store the new style or drop the attribute when it strips to
nothing, counting one removed page break. -/
def breaksPass4 (t0 : XNode) (pb0 : Nat) (ch0 : Bool) : XNode × Nat × Bool :=
  let ids := (findAll (fun n =>
    strContains (attrD n "style") "page-break" ||
    strContains (attrD n "style") "pagebreak") t0).map nid
  ids.foldl (fun st eid =>
    match st with
    | (t, pb, ch) =>
      match getById eid t with
      | none => (t, pb, ch)
      | some e =>
        let ibc :=
          match nextSibOf eid t with
          | some n => (n.tag = "h1" || n.tag = "h2") && kwAny (pyLower (pyStrip n.text))
          | none => false
        if !ibc then
          let style := attrD e "style"
          let ns := stripPageBreakStyle style
          if ns ≠ style then
            let t :=
              if pyStrip ns ≠ "" then mapNode eid (withAttrs (fun a => setAttrList a "style" ns)) t
              else mapNode eid (withAttrs (fun a => popAttrList a "style")) t
            (t, pb + 1, true)
          else (t, pb, ch)
        else (t, pb, ch)) (t0, pb0, ch0)

/-- Embedding of `breaks.normalize_context_breaks`: the four passes per
content document; a `ValueError` raised by pass 2 aborts the file — no
write-back — but keeps the counter values reached (they are locals of the
whole rule), and is logged as an error change entry. -/
def normalize_context_breaks : Rule := fun book s =>
  let step := fun acc path =>
    match acc with
    | (d, r, sc, pb) =>
      match Disk.readXhtml d path with
      | none => (d, r, sc, pb)
      | some tree =>
        let fresh := maxId tree + 1
        match breaksPass1 tree with
        | (t1, pbAdd, ch1) =>
          let pb1 := pb + pbAdd
          let ps2 := findAll (fun n => n.tag = "p") t1
          match breaksPass2Loop ps2.length ps2 0 t1 fresh sc ch1 with
          | Except.error scErr =>
            (d, Reporter.log_change r path "Error processing: ValueError", scErr, pb1)
          | Except.ok (t2, fresh2, sc2, ch2) =>
            match breaksPass3 t2 fresh2 sc2 pb1 ch2 with
            | (t3, _, sc3, pb3, ch3) =>
              match breaksPass4 t3 pb3 ch3 with
              | (t4, pb4, ch4) =>
                if ch4 then
                  let parts :=
                    (if sc3 > 0 then ["Created " ++ toString sc3 ++ " scene breaks"] else []) ++
                    (if pb4 > 0 then ["Removed " ++ toString pb4 ++ " page breaks"] else [])
                  let d := Disk.writeXhtml d path t4
                  let r := if !parts.isEmpty then
                      Reporter.log_change r path (String.intercalate "; " parts)
                    else r
                  (d, r, sc3, pb4)
                else (d, r, sc3, pb4)
  match book.get_xhtml_files.foldl step (s.1, s.2, 0, 0) with
  | (d, r, sc, pb) =>
    (d, Reporter.increment (Reporter.increment r "breaks.normalized_scene_breaks" sc)
          "breaks.removed_page_breaks" pb)

end EpubRepair

/-! ## Image normalizer (`rules/images.py`) and CSS cleanup rules -/

namespace EpubRepair

open XNode

/-- Embedding of `images.normalize_images`: add an empty `alt` attribute to
every image lacking one; the counter accumulates across files and the
change strings quote it. -/
def normalize_images : Rule := fun book s =>
  let step := fun acc path =>
    match acc with
    | (d, r, alts) =>
      match Disk.readXhtml d path with
      | none => (d, r, alts)
      | some tree =>
        let imgIds := (findAll (fun n => n.tag = "img") tree).map nid
        let st := imgIds.foldl (fun st i =>
          match st with
          | (t, c) =>
            match getById i t with
            | some img =>
              if !img.hasAttr "alt" then
                (mapNode i (withAttrs (fun a => setAttrList a "alt" "")) t, c + 1)
              else (t, c)
            | none => (t, c)) (tree, alts)
        if st.2 > alts then
          (Disk.writeXhtml d path st.1,
           Reporter.log_change r path ("Added " ++ toString st.2 ++ " alt attributes"),
           st.2)
        else (d, r, st.2)
  match book.get_xhtml_files.foldl step (s.1, s.2, 0) with
  | (d, r, alts) => (d, Reporter.increment r "images.added_alt" alts)

/-- Total number of declarations in a stylesheet (to recover the per-file
removal count: the passes only drop declarations, so the count removed is
the difference of totals, exactly what the per-pass counting of the source
adds up to). -/
def totalDecls (rules : Stylesheet) : Nat :=
  (rules.map (fun r => r.content.length)).sum

/-- Embedding of `css_cleanup.simplify_css_safe` as a pipeline rule:
filter each stylesheet through the three safe passes, write back and log
only when the file lost a declaration; the removal counter accumulates
across files and the change strings quote it. -/
def simplify_css_safe : Rule := fun book s =>
  let step := fun acc path =>
    match acc with
    | (d, r, removed) =>
      match Disk.readCss d path with
      | none => (d, r, removed)
      | some rules =>
        let newRules := simplify_css_safe_sheet rules
        let removed1 := removed + (totalDecls rules - totalDecls newRules)
        if totalDecls newRules < totalDecls rules then
          (Disk.writeCss d path newRules,
           Reporter.log_change r path
             ("Removed " ++ toString removed1 ++ " aggressive CSS properties"),
           removed1)
        else (d, r, removed1)
  match book.get_css_files.foldl step (s.1, s.2, 0) with
  | (d, r, removed) =>
    (d, Reporter.increment (Reporter.increment r "css.removed_properties" removed)
          "css.modified_properties" 0)

/-- The per-stylesheet step of `simplify_css_aggressive` (hoisted so the
pipeline theorems can reason about the file fold). -/
def cssAggressiveStep (acc : Disk × Reporter × Nat) (path : String) :
    Disk × Reporter × Nat :=
  match acc with
  | (d, r, removed) =>
    match Disk.readCss d path with
    | none => (d, r, removed)
    | some rules =>
      let newRules := simplify_css_aggressive_sheet rules
      let removed1 := removed + (totalDecls rules - totalDecls newRules)
      if totalDecls newRules < totalDecls rules then
        (Disk.writeCss d path newRules,
         Reporter.log_change r path
           ("Removed " ++ toString removed1 ++ " font-family declarations"),
         removed1)
      else (d, r, removed1)

/-- Embedding of `css_cleanup.simplify_css_aggressive` as a pipeline rule:
drop every `font-family` declaration; the `@font-face` removal of the
docstring is an unimplemented placeholder in the source, so its counter
stays zero. -/
def simplify_css_aggressive : Rule := fun book s =>
  match book.get_css_files.foldl cssAggressiveStep (s.1, s.2, 0) with
  | (d, r, removed) =>
    (d, Reporter.increment (Reporter.increment r "css.removed_font_families" removed)
          "css.removed_font_faces" 0)

end EpubRepair

/-! ## Rule pipeline (`rules/__init__.py` and `cli.run_repair`) -/

namespace EpubRepair

/-- Embedding of `SAFE_RULES`: the ordered safe rule list. -/
def SAFE_RULES : List Rule :=
  [normalize_headings, normalize_paragraphs_and_indents, normalize_lists,
   normalize_context_breaks, normalize_images, simplify_css_safe]

/-- Embedding of `AGGRESSIVE_RULES = SAFE_RULES + [simplify_css_aggressive]`. -/
def AGGRESSIVE_RULES : List Rule :=
  SAFE_RULES ++ [simplify_css_aggressive]

/-- The rule application loop of `cli.run_repair`: apply each rule in
order to the book (none of the embedded rules throws at rule level, so the
per-rule `except` of the driver stays inert). -/
def runRules (rules : List Rule) (book : EpubBook) (s : Disk × Reporter) :
    Disk × Reporter :=
  rules.foldl (fun s rule => rule book s) s

/-- One repair run of `cli.run_repair` over an extracted book: fresh
reporter and a fresh write trace, then the selected rule list. -/
def run_repair (rules : List Rule) (book : EpubBook)
    (files : List (String × FileContent)) : Disk × Reporter :=
  runRules rules book (⟨files, []⟩, Reporter.empty)

end EpubRepair

/-! ## NCX to navigation-document conversion (`epub_upgrade/nav_conversion.py`) -/

namespace EpubRepair

/-- An NCX `navPoint` as the converter reads it through ElementTree:
`navLabel` (present or not, containing an optional `text` element with
optional text), `content` (present or not, with its optional `src`
attribute), and the child navPoints. -/
inductive NavPoint : Type where
  | mk (navLabel : Option (Option (Option String)))
       (content : Option (Option String))
       (children : List NavPoint)
  deriving Repr

/-- The child navPoints of an entry. -/
def NavPoint.children : NavPoint → List NavPoint
  | .mk _ _ cs => cs

/-- A node of the synthesized navigation document (ElementTree output
side: no identity is needed there). -/
inductive HNode : Type where
  | el (tag : String) (attrs : List (String × String)) (text : String)
       (kids : List HNode)
  deriving Repr

mutual
/-- Embedding of the per-entry body of `nav_conversion._convert_nav_points`:
one list item for an entry that has a navLabel, a content element and a
label text element; an entry missing any of the three is skipped silently;
an entry with children gets a nested ordered list inside the same item,
filled by direct recursion over the direct children. -/
def convert_nav_point : NavPoint → List HNode
  | .mk navLabel content chs =>
    match navLabel, content with
    | some lblEl, some srcAttr =>
      (match lblEl with
       | some txtOpt =>
         [HNode.el "li" [] ""
           (HNode.el "a" [("href", srcAttr.getD "")] (txtOpt.getD "") [] ::
             (if chs.isEmpty then []
              else [HNode.el "ol" [] "" (convert_nav_points chs)]))]
       | none => [])
    | _, _ => []
/-- The list items emitted for a sequence of navPoints, in order. -/
def convert_nav_points : List NavPoint → List HNode
  | [] => []
  | p :: ps => convert_nav_point p ++ convert_nav_points ps
end

mutual
/-- Embedding of `navMap.findall(".//ncx:navPoint", ...)` seen from one
navPoint: itself and every descendant, in document order. -/
def navPointDescendants : NavPoint → List NavPoint
  | .mk l c cs => .mk l c cs :: navPointDescendantsL cs
/-- Descendant collection over a sequence of navPoints. -/
def navPointDescendantsL : List NavPoint → List NavPoint
  | [] => []
  | p :: ps => navPointDescendants p ++ navPointDescendantsL ps
end

/-- Embedding of `navMap.findall(".//ncx:navPoint", ...)` as used for the
top-level list: every navPoint at every depth, in document order. -/
def allNavPoints (ps : List NavPoint) : List NavPoint :=
  navPointDescendantsL ps

/-- Embedding of the `nav` element built by
`nav_conversion.convert_ncx_to_nav_xhtml`: heading plus the top-level
ordered list, which the source fills from the `.//` descendant query. -/
def convert_ncx_nav_element (navMap : List NavPoint) : HNode :=
  HNode.el "nav" [("epub:type", "toc")] ""
    [HNode.el "h1" [] "Table of Contents" [],
     HNode.el "ol" [] "" (convert_nav_points (allNavPoints navMap))]

/-- Embedding of the whole document shell written by
`convert_ncx_to_nav_xhtml`. -/
def convert_ncx_to_nav_xhtml (navMap : List NavPoint) : HNode :=
  HNode.el "html"
    [("xmlns", "http://www.w3.org/1999/xhtml"),
     ("xmlns_epub", "http://www.idpf.org/2007/ops")] ""
    [HNode.el "head" [] "" [HNode.el "title" [] "Table of Contents" []],
     HNode.el "body" [] "" [convert_ncx_nav_element navMap]]

/-- The navigation list structure claim C3 expects, written from the spec
words: one list item per entry, recursing over the direct children only,
so the output mirrors the source nesting exactly.  (It reuses the item
builder, whose per-item shape is not in dispute; the dispute is which
entries feed the top-level list.) -/
def c3MirrorItems (navMap : List NavPoint) : List HNode :=
  convert_nav_points navMap

end EpubRepair

/-! ## Claim-side predicates and concrete inputs -/

namespace EpubRepair

open XNode

/-- The retention condition that pass 1 of the break classifier actually
implements, written declaratively (the amended claim C4): the candidate
immediately precedes an `h1`/`h2` sibling AND (that heading's text has a
chapter keyword, or the candidate is among the first three paragraphs of
the document in flat `//p` order, or among the first three children of its
parent). -/
def keptAmendedC4 (t : XNode) (i : Nat) (p : XNode) : Bool :=
  match nextSibOf p.nid t with
  | some n =>
    (n.tag = "h1" || n.tag = "h2") &&
      (kwAny (pyLower (pyStrip n.text)) || i < 3 ||
        (match parentOf p.nid t with
         | some par =>
           (match childIdx par p.nid with
            | some j => j < 3
            | none => false)
         | none => false))
  | none => false

/-- The retention condition of claim C4 as stated: keyword heading right
after, or among the first three children of the parent and immediately
followed by an `h1`/`h2`. -/
def keptClaimC4 (t : XNode) (p : XNode) : Bool :=
  match nextSibOf p.nid t with
  | some n =>
    (n.tag = "h1" || n.tag = "h2") &&
      (kwAny (pyLower (pyStrip n.text)) ||
        (match parentOf p.nid t with
         | some par =>
           (match childIdx par p.nid with
            | some j => j < 3
            | none => false)
         | none => false))
  | none => false

/-- A paragraph of the snapshot is removed by pass 1 exactly when it is a
page-break candidate not retained (amended claim C4). -/
def shouldRemoveC4 (t : XNode) (i : Nat) (p : XNode) : Bool :=
  is_page_break_candidate p && !keptAmendedC4 t i p

/-- Well-formed tree: all node ids are distinct (Python object identity). -/
def WFIds (t : XNode) : Prop :=
  ((allNodes t).map nid).Nodup

/-- No paragraph contains another paragraph (page-break candidates are
then never nested inside one another, so batched removals through live
parent references never act inside an already detached subtree). -/
def NoNestedP (t : XNode) : Prop :=
  ∀ n ∈ allNodes t, n.tag = "p" → ∀ m ∈ allNodesL n.kids, m.tag ≠ "p"

instance (t : XNode) : Decidable (WFIds t) := by
  unfold WFIds
  infer_instance

instance (t : XNode) : Decidable (NoNestedP t) := by
  unfold NoNestedP
  infer_instance

/-- The document of claim C1's failing input: a body holding exactly three
empty paragraphs. -/
def c1Doc : XNode :=
  .el 0 "html" [] "" ""
    [.el 1 "body" [] "" ""
      [.el 2 "p" [] "" "" [], .el 3 "p" [] "" "" [], .el 4 "p" [] "" "" []]]

/-- A one-document book (spine and manifest agree on one content file). -/
def oneFileBook (path : String) : EpubBook :=
  ⟨[⟨"item1", path⟩], [("item1", ⟨"item1", path, "application/xhtml+xml"⟩)]⟩

/-- The document of claim C2's failing input (the spec example): three
marker paragraphs as the only content. -/
def c2Doc : XNode :=
  .el 0 "html" [] "" ""
    [.el 1 "body" [] "" ""
      [.el 2 "p" [] "- A" "" [], .el 3 "p" [] "- B" "" [], .el 4 "p" [] "- C" "" []]]

/-- The document of the C4 counterexample: the paragraph is the fourth
child of the body (so the claim's parent-position branch does not hold)
but the first paragraph of the document in flat order, immediately
followed by a keywordless heading. -/
def c4Doc : XNode :=
  .el 0 "html" [] "" ""
    [.el 1 "body" [] "" ""
      [.el 2 "div" [] "x" "" [], .el 3 "div" [] "y" "" [], .el 4 "div" [] "z" "" [],
       .el 5 "p" [] "" "" [], .el 6 "h2" [] "Hello" "" []]]

/-- The candidate paragraph of the C4 counterexample. -/
def c4Para : XNode := .el 5 "p" [] "" "" []

/-- The document of the C5 counterexample: a fake heading whose class is
`chapter` (no `heading` substring) and that has a child with tail text. -/
def c5Doc : XNode :=
  .el 0 "html" [] "" ""
    [.el 1 "body" [] "" ""
      [.el 2 "p" [("class", "chapter")] "X" ""
        [.el 3 "em" [] "e" "!" []]]]

/-- The document of the C5 spec example: `<p class="heading1">Chapter
One</p>` as the only content. -/
def c5ExampleDoc : XNode :=
  .el 0 "html" [] "" ""
    [.el 1 "body" [] "" ""
      [.el 2 "p" [("class", "heading1")] "Chapter One" "" []]]

/-- The document of claim C9's failing input, second file: plain content
no rule touches. -/
def c9Doc2 : XNode :=
  .el 0 "html" [] "" "" [.el 1 "body" [] "" "" [.el 2 "p" [] "hello" "" []]]

/-- A two-document book for claim C9. -/
def twoFileBook (p1 p2 : String) : EpubBook :=
  ⟨[⟨"item1", p1⟩, ⟨"item2", p2⟩],
   [("item1", ⟨"item1", p1, "application/xhtml+xml"⟩),
    ("item2", ⟨"item2", p2, "application/xhtml+xml"⟩)]⟩

/-- The document of claim C8's failing input: two kept page-break
paragraphs under different parents that are adjacent in the flat `//p`
snapshot, plus one removable empty paragraph at the end of the body. -/
def c8Doc : XNode :=
  .el 0 "html" [] "" ""
    [.el 1 "body" [] "" ""
      [.el 2 "div" [] "" "" [.el 3 "p" [] "" "" [], .el 4 "h2" [] "Chapter One" "" []],
       .el 5 "div" [] "" "" [.el 6 "p" [] "" "" [], .el 7 "h2" [] "Chapter Two" "" []],
       .el 8 "p" [] "" "" []]]

/-- The extracted files of claim C8's failing input. -/
def c8Files : List (String × FileContent) := [("c8.xhtml", .xhtml c8Doc)]

/-- The stylesheet rule of the C6 example:
`body { font-size: 12px; line-height: 1.0; font-family: serif; }`. -/
def c6ExampleRule : CssRule :=
  ⟨"body", [⟨"font-size", "12px"⟩, ⟨"line-height", "1.0"⟩, ⟨"font-family", "serif"⟩]⟩

/-- The NCX navMap of claim C3's failing input: entry A with child entry
B, both with label and target. -/
def c3NavMap : List NavPoint :=
  [.mk (some (some (some "A"))) (some (some "a.xhtml"))
    [.mk (some (some (some "B"))) (some (some "b.xhtml")) []]]

end EpubRepair

/-! ## Claim theorems -/

namespace EpubRepair

open XNode

/-- C1: the claim says a run of three consecutive empty paragraphs is
replaced by one `hr class="scene-break"` with the scene-break counter
incremented once.  On the body holding exactly three empty paragraphs the
break classifier instead removes all three in its page-break pass before
the scene-break pass runs, counts three removed page breaks, creates no
horizontal rule, and leaves the scene-break counter at zero: the
scene-break replacement can never fire on a sibling run of empty
paragraphs because the page-break pass consumes them first. -/
theorem c1_three_empty_paragraphs_removed_not_replaced :
    Disk.readXhtml (normalize_context_breaks (oneFileBook "c1.xhtml")
        (⟨[("c1.xhtml", .xhtml c1Doc)], []⟩, Reporter.empty)).1 "c1.xhtml" =
      some (.el 0 "html" [] "" "" [.el 1 "body" [] "" "" []]) ∧
    Reporter.counterGet (normalize_context_breaks (oneFileBook "c1.xhtml")
        (⟨[("c1.xhtml", .xhtml c1Doc)], []⟩, Reporter.empty)).2
        "breaks.normalized_scene_breaks" = 0 ∧
    Reporter.counterGet (normalize_context_breaks (oneFileBook "c1.xhtml")
        (⟨[("c1.xhtml", .xhtml c1Doc)], []⟩, Reporter.empty)).2
        "breaks.removed_page_breaks" = 3 :=
  ⟨rfl, rfl, rfl⟩

/-- C2: the claim (and the spec example) says three paragraphs `- A`,
`- B`, `- C` become one `ul` with three `li` children at the run's
position.  The list normalizer removes the three paragraphs, builds the
list element, but then reads `first_p.getparent()` on the already detached
first paragraph, gets no parent, and never inserts the list: the body ends
up empty, while the counter is still incremented and the file written. -/
theorem c2_list_run_deleted_and_list_never_inserted :
    Disk.readXhtml (normalize_lists (oneFileBook "c2.xhtml")
        (⟨[("c2.xhtml", .xhtml c2Doc)], []⟩, Reporter.empty)).1 "c2.xhtml" =
      some (.el 0 "html" [] "" "" [.el 1 "body" [] "" "" []]) ∧
    Reporter.counterGet (normalize_lists (oneFileBook "c2.xhtml")
        (⟨[("c2.xhtml", .xhtml c2Doc)], []⟩, Reporter.empty)).2
        "lists.converted_paragraphs" = 1 ∧
    (normalize_lists (oneFileBook "c2.xhtml")
        (⟨[("c2.xhtml", .xhtml c2Doc)], []⟩, Reporter.empty)).1.writes = ["c2.xhtml"] :=
  ⟨rfl, rfl, rfl⟩

/-- C3: the claim says the synthesized navigation list mirrors the NCX
nesting exactly, one list item per entry.  The converter fills the
top-level ordered list from `.//navPoint` — every descendant, not the
direct children — while the recursion uses direct children, so a nested
entry appears twice: nested under its parent and again as a top-level
item.  On navMap `A ⊃ B` the top-level list has two items instead of
one. -/
theorem c3_nested_navpoints_duplicated_at_top_level :
    convert_ncx_nav_element c3NavMap =
      HNode.el "nav" [("epub:type", "toc")] ""
        [HNode.el "h1" [] "Table of Contents" [],
         HNode.el "ol" [] ""
           [HNode.el "li" [] ""
              [HNode.el "a" [("href", "a.xhtml")] "A" [],
               HNode.el "ol" [] ""
                 [HNode.el "li" [] "" [HNode.el "a" [("href", "b.xhtml")] "B" []]]],
            HNode.el "li" [] "" [HNode.el "a" [("href", "b.xhtml")] "B" []]]] ∧
    (convert_nav_points (allNavPoints c3NavMap)).length = 2 ∧
    (c3MirrorItems c3NavMap).length = 1 ∧
    convert_nav_points (allNavPoints c3NavMap) ≠ c3MirrorItems c3NavMap :=
  ⟨rfl, rfl, rfl, fun h => by
    have hlen := congrArg List.length h
    rw [show (convert_nav_points (allNavPoints c3NavMap)).length = 2 from rfl] at hlen
    rw [show (c3MirrorItems c3NavMap).length = 1 from rfl] at hlen
    exact absurd hlen (by decide)⟩

/-- C8: the claim says re-running the Safe pipeline on its own output
produces zero further counter increments.  On a book whose single document
holds two kept page-break paragraphs under different parents (flat-
adjacent in the `//p` snapshot) plus one removable empty paragraph, the
break classifier counts the removal, then raises a `ValueError` in the
scene-break pass (removing the second run member from the first member's
parent), so the file is never written back; every later run sees the same
input and increments `breaks.removed_page_breaks` again. -/
theorem c8_safe_pipeline_not_idempotent :
    (run_repair SAFE_RULES (oneFileBook "c8.xhtml") c8Files).1.files = c8Files ∧
    Reporter.counterGet (run_repair SAFE_RULES (oneFileBook "c8.xhtml") c8Files).2
      "breaks.removed_page_breaks" = 1 ∧
    Reporter.counterGet (run_repair SAFE_RULES (oneFileBook "c8.xhtml")
        (run_repair SAFE_RULES (oneFileBook "c8.xhtml") c8Files).1.files).2
      "breaks.removed_page_breaks" = 1 :=
  ⟨rfl, rfl, rfl⟩

/-- C9: the claim says a rule writes a document back, and logs a per-file
entry, only when at least one change occurred in that file.  The heading
normalizer tests its conversion counters, which accumulate across files:
after converting a fake heading in the first file it also rewrites and
logs the unchanged second file. -/
theorem c9_unchanged_file_written_and_logged :
    (normalize_headings (twoFileBook "f1.xhtml" "f2.xhtml")
        (⟨[("f1.xhtml", .xhtml (.el 0 "html" [] "" ""
            [.el 1 "body" [] "" "" [.el 2 "p" [("class", "heading1")] "T" "" []]])),
           ("f2.xhtml", .xhtml c9Doc2)], []⟩, Reporter.empty)).1.writes =
      ["f1.xhtml", "f2.xhtml"] ∧
    Disk.readXhtml (normalize_headings (twoFileBook "f1.xhtml" "f2.xhtml")
        (⟨[("f1.xhtml", .xhtml (.el 0 "html" [] "" ""
            [.el 1 "body" [] "" "" [.el 2 "p" [("class", "heading1")] "T" "" []]])),
           ("f2.xhtml", .xhtml c9Doc2)], []⟩, Reporter.empty)).1 "f2.xhtml" =
      some c9Doc2 ∧
    (normalize_headings (twoFileBook "f1.xhtml" "f2.xhtml")
        (⟨[("f1.xhtml", .xhtml (.el 0 "html" [] "" ""
            [.el 1 "body" [] "" "" [.el 2 "p" [("class", "heading1")] "T" "" []]])),
           ("f2.xhtml", .xhtml c9Doc2)], []⟩, Reporter.empty)).2.changes =
      [("f1.xhtml", "Converted 1 fake headings, fixed 0 nesting issues"),
       ("f2.xhtml", "Converted 1 fake headings, fixed 0 nesting issues")] :=
  ⟨rfl, rfl, rfl⟩

end EpubRepair

namespace EpubRepair

open XNode

/-- C4 counterexample: the paragraph `c4Para` is a page-break candidate,
is not retained under the claim's rule (its heading has no keyword and it
is the fourth child of its parent), yet pass 1 keeps it in the tree and
counts no removal, because the source also retains a candidate whose flat
`//p` index is below three (`elif i < 3`). -/
theorem c4_counterexample_flat_index_retention :
    is_page_break_candidate c4Para = true ∧
    keptClaimC4 c4Doc c4Para = false ∧
    occurs 5 (breaksPass1 c4Doc).1 = true ∧
    (breaksPass1 c4Doc).2.1 = 0 :=
  ⟨rfl, rfl, rfl, rfl⟩

/-- C5 counterexample: on `<p class="chapter">X<em>e</em>!</p>` the
heading normalizer produces an `h2` that still carries the whole
`class="chapter"` attribute (the source drops `class` only when its value
contains `heading`), and the moved child's tail is doubled to `!!`; the
claim instead demands the matched class token removed and the children
preserved as they were. -/
theorem c5_counterexample_class_attribute_kept :
    Disk.readXhtml (normalize_headings (oneFileBook "c5.xhtml")
        (⟨[("c5.xhtml", .xhtml c5Doc)], []⟩, Reporter.empty)).1 "c5.xhtml" =
      some (.el 0 "html" [] "" "" [.el 1 "body" [] "" ""
        [.el 4 "h2" [("class", "chapter")] "X" "" [.el 3 "em" [] "e" "!!" []]]]) ∧
    (Disk.readXhtml (normalize_headings (oneFileBook "c5.xhtml")
        (⟨[("c5.xhtml", .xhtml c5Doc)], []⟩, Reporter.empty)).1 "c5.xhtml").map
      (fun d => ((allNodes d).filter (fun n => isHeadingTag n.tag)).map attrs) ≠
      some [[]] ∧
    (Disk.readXhtml (normalize_headings (oneFileBook "c5.xhtml")
        (⟨[("c5.xhtml", .xhtml c5Doc)], []⟩, Reporter.empty)).1 "c5.xhtml").map
      (fun d => ((allNodes d).filter (fun n => n.tag = "em")).map tail) ≠
      some ["!"] :=
  ⟨rfl, by decide, by decide⟩

end EpubRepair

namespace EpubRepair

/-- Collecting fold against an option-producing selector is `filterMap`
(helper for the spine characterization). -/
theorem foldl_collect_eq_filterMap {α β : Type} (f : α → Option β) :
    ∀ (l : List α) (acc : List β),
      l.foldl (fun acc x => match f x with | some y => acc ++ [y] | none => acc) acc
        = acc ++ l.filterMap f := by
  intro l
  induction l with
  | nil => intro acc; simp
  | cons x xs ih =>
    intro acc
    cases hfx : f x <;> simp [List.filterMap_cons, hfx, ih]

/-- C10: `get_xhtml_files` returns exactly the spine items, in spine
order, whose idref resolves to a manifest item of media type
`application/xhtml+xml`; a dangling idref or another media type is
silently skipped (the selector yields `none`), never an error. -/
theorem c10_get_xhtml_files_characterization (b : EpubBook) :
    b.get_xhtml_files = b.spine_items.filterMap (fun s =>
      match b.manifest_items.lookup s.idref with
      | some m => if m.media_type = "application/xhtml+xml" then some s.href else none
      | none => none) := by
  have h := foldl_collect_eq_filterMap (fun s : SpineItem =>
    match b.manifest_items.lookup s.idref with
    | some m => if m.media_type = "application/xhtml+xml" then some s.href else none
    | none => none) b.spine_items []
  simp only [List.nil_append] at h
  rw [EpubBook.get_xhtml_files, ← h]
  congr 1
  funext acc s
  cases hm : b.manifest_items.lookup s.idref with
  | none => simp [hm]
  | some m =>
    by_cases ht : m.media_type = "application/xhtml+xml" <;> simp [hm, ht]

end EpubRepair

namespace EpubRepair

/-- C6: the safe CSS cleanup drops exactly the declarations described by
the claim — font-size with an absolute unit only from rules selecting
exactly `body` or `html`, fixed line-height and flex/grid display from all
rules — and the aggressive cleanup additionally drops every font-family
declaration; on the example rule
`body { font-size: 12px; line-height: 1.0; font-family: serif; }` safe
mode keeps only `font-family` and aggressive mode then drops it too. -/
theorem c6_css_cleanup_drops :
    (∀ rules : Stylesheet, simplify_css_safe_sheet rules =
        rules.map fun r =>
          { r with content := r.content.filter fun d => !c6SafeDrops r.selector d }) ∧
    (∀ rules : Stylesheet, simplify_css_aggressive_sheet rules =
        rules.map fun r =>
          { r with content := r.content.filter fun d => !(d.name = "font-family") }) ∧
    simplify_css_safe_sheet [c6ExampleRule] =
      [⟨"body", [⟨"font-family", "serif"⟩]⟩] ∧
    simplify_css_aggressive_sheet (simplify_css_safe_sheet [c6ExampleRule]) =
      [⟨"body", []⟩] := by
  refine ⟨?_, fun rules => rfl, by decide, by decide⟩
  intro rules
  unfold simplify_css_safe_sheet
  simp only [List.map_map]
  congr 1
  funext r
  by_cases hsel : (r.selector = "body" || r.selector = "html") = true
  · simp only [Function.comp, hsel, if_true]
    congr 1
    rw [List.filter_filter, List.filter_filter]
    apply List.filter_congr
    intro d _
    simp only [c6SafeDrops, hsel, Bool.true_and]
    generalize (decide (d.name = "font-size") && is_absolute_size d) = A
    generalize (decide (d.name = "line-height") && is_fixed_line_height d) = B
    generalize (decide (d.name = "display") && is_flex_or_grid d) = C
    cases A <;> cases B <;> cases C <;> rfl
  · simp only [Bool.not_eq_true] at hsel
    simp only [Function.comp, hsel, if_false, Bool.false_eq_true]
    congr 1
    rw [List.filter_filter]
    apply List.filter_congr
    intro d _
    simp only [c6SafeDrops, hsel, Bool.false_and, Bool.false_or]
    generalize (decide (d.name = "line-height") && is_fixed_line_height d) = B
    generalize (decide (d.name = "display") && is_flex_or_grid d) = C
    cases B <;> cases C <;> rfl

end EpubRepair

namespace EpubRepair

/-- Incrementing a category leaves the lookup of any other key alone (the
update rewrites values in place without touching keys). -/
theorem lookup_map_incr_ne (l : List (String × Nat)) (c k : String) (n : Nat)
    (hk : k ≠ c) :
    (l.map fun kv => if kv.1 = c then (kv.1, kv.2 + n) else kv).lookup k = l.lookup k := by
  induction l with
  | nil => rfl
  | cons kv tl ih =>
    obtain ⟨a, b⟩ := kv
    simp only [List.map_cons]
    by_cases h1 : a = c
    · rw [if_pos h1]
      have hk2 : (k == a) = false := beq_eq_false_iff_ne.mpr (by rw [h1]; exact hk)
      simp [List.lookup, hk2, ih]
    · rw [if_neg h1]
      cases hka : (k == a) <;> simp [List.lookup, hka, ih]

/-- When the category is present, its looked-up value grows by the
increment. -/
theorem lookup_map_incr_eq (l : List (String × Nat)) (c : String) (n : Nat)
    (hc : l.any (fun kv => kv.1 = c) = true) :
    (((l.map fun kv => if kv.1 = c then (kv.1, kv.2 + n) else kv).lookup c).getD 0)
      = ((l.lookup c).getD 0) + n := by
  induction l with
  | nil => simp at hc
  | cons kv tl ih =>
    obtain ⟨a, b⟩ := kv
    simp only [List.map_cons]
    by_cases h1 : a = c
    · rw [if_pos h1]
      have hca : (c == a) = true := beq_iff_eq.mpr h1.symm
      simp [List.lookup, hca]
    · have hc2 : tl.any (fun kv => kv.1 = c) = true := by
        simp only [List.any_cons] at hc
        simpa [h1] using hc
      have hca : (c == a) = false := beq_eq_false_iff_ne.mpr (Ne.symm h1)
      rw [if_neg h1]
      simp [List.lookup, hca, ih hc2]

/-- A key that no entry carries looks up to nothing. -/
theorem lookup_not_any (l : List (String × Nat)) (c : String)
    (h : l.any (fun kv => kv.1 = c) = false) : l.lookup c = none := by
  induction l with
  | nil => rfl
  | cons kv tl ih =>
    obtain ⟨a, b⟩ := kv
    have h1 : (decide (a = c) || tl.any (fun kv => decide (kv.1 = c))) = false := by
      simpa [List.any_cons] using h
    rcases Bool.or_eq_false_iff.mp h1 with ⟨ha, ht⟩
    have hca : (c == a) = false :=
      beq_eq_false_iff_ne.mpr (Ne.symm (of_decide_eq_false ha))
    simp [List.lookup, hca, ih ht]

/-- Lookup distributes over append, preferring the left list. -/
theorem lookup_append_gen (l1 l2 : List (String × Nat)) (k : String) :
    (l1 ++ l2).lookup k = ((l1.lookup k).orElse fun _ => l2.lookup k) := by
  induction l1 with
  | nil => rfl
  | cons kv tl ih =>
    obtain ⟨a, b⟩ := kv
    by_cases h : (k == a) = true
    · simp [List.lookup, h]
    · have h2 : (k == a) = false := by simpa using h
      simp [List.lookup, h2, ih]

/-- The effect of `Reporter.increment` on any counter value. -/
theorem Reporter.counterGet_increment (r : Reporter) (c : String) (n : Nat) (k : String) :
    (r.increment c n).counterGet k =
      if k = c then r.counterGet k + n else r.counterGet k := by
  unfold Reporter.increment Reporter.counterGet
  by_cases hc : r.counters.any (fun kv => kv.1 = c) = true
  · simp only [hc, if_true]
    by_cases hk : k = c
    · subst hk
      simp [lookup_map_incr_eq _ _ _ hc]
    · simp [lookup_map_incr_ne _ _ _ _ hk, hk]
  · simp only [Bool.not_eq_true] at hc
    simp only [hc, Bool.false_eq_true, if_false]
    by_cases hk : k = c
    · subst hk
      simp [lookup_append_gen, lookup_not_any _ _ hc, List.lookup]
    · have hk2 : (k == c) = false := by simp [hk]
      simp [lookup_append_gen, hk, List.lookup, hk2]

/-- `Reporter.increment` never touches the change log. -/
theorem Reporter.changes_increment (r : Reporter) (c : String) (n : Nat) :
    (r.increment c n).changes = r.changes := by
  unfold Reporter.increment
  split <;> rfl

/-- One aggressive-CSS file step keeps the counters and only appends to
the change log. -/
theorem cssAggressiveStep_reporter (acc : Disk × Reporter × Nat) (path : String) :
    ((cssAggressiveStep acc path).2.1).counters = acc.2.1.counters ∧
    ∃ tl, ((cssAggressiveStep acc path).2.1).changes = acc.2.1.changes ++ tl := by
  obtain ⟨d, r, removed⟩ := acc
  unfold cssAggressiveStep
  dsimp only
  cases hread : d.readCss path with
  | none => exact ⟨rfl, [], by simp⟩
  | some rules =>
    dsimp only
    split
    · exact ⟨rfl, _, rfl⟩
    · exact ⟨rfl, [], by simp⟩

/-- The aggressive-CSS file fold keeps the counters and only appends to
the change log. -/
theorem cssAggressiveFold_reporter (paths : List String) :
    ∀ acc : Disk × Reporter × Nat,
      ((paths.foldl cssAggressiveStep acc).2.1).counters = acc.2.1.counters ∧
      ∃ tl, ((paths.foldl cssAggressiveStep acc).2.1).changes = acc.2.1.changes ++ tl := by
  induction paths with
  | nil => exact fun acc => ⟨rfl, [], by simp⟩
  | cons p ps ih =>
    intro acc
    simp only [List.foldl_cons]
    obtain ⟨h1, tl1, h2⟩ := cssAggressiveStep_reporter acc p
    obtain ⟨h3, tl2, h4⟩ := ih (cssAggressiveStep acc p)
    exact ⟨h3.trans h1, tl1 ++ tl2, by rw [h4, h2, List.append_assoc]⟩

/-- The aggressive CSS rule only appends change entries, only increases
counters, and increments no counter outside its two font categories. -/
theorem simplify_css_aggressive_reporter (b : EpubBook) (s : Disk × Reporter) :
    (∃ tl, (simplify_css_aggressive b s).2.changes = s.2.changes ++ tl) ∧
    (∀ k, s.2.counterGet k ≤ (simplify_css_aggressive b s).2.counterGet k) ∧
    (∀ k, k ≠ "css.removed_font_families" → k ≠ "css.removed_font_faces" →
      (simplify_css_aggressive b s).2.counterGet k = s.2.counterGet k) := by
  obtain ⟨hcnt, tl, hchg⟩ := cssAggressiveFold_reporter b.get_css_files (s.1, s.2, 0)
  unfold simplify_css_aggressive
  cases hres : (b.get_css_files).foldl cssAggressiveStep (s.1, s.2, 0) with
  | mk d rest =>
    obtain ⟨r, removed⟩ := rest
    rw [hres] at hcnt hchg
    dsimp only at hcnt hchg ⊢
    have hget : ∀ k, r.counterGet k = s.2.counterGet k := by
      intro k
      unfold Reporter.counterGet
      rw [hcnt]
    constructor
    · refine ⟨tl, ?_⟩
      rw [Reporter.changes_increment, Reporter.changes_increment]
      exact hchg
    constructor
    · intro k
      rw [Reporter.counterGet_increment, Reporter.counterGet_increment, hget k]
      split <;> split <;> omega
    · intro k hk1 hk2
      rw [Reporter.counterGet_increment, Reporter.counterGet_increment, hget k,
        if_neg hk2, if_neg hk1]

/-- C7: the aggressive rule sequence is the safe sequence followed by the
extra aggressive CSS rule, so an aggressive run replays the safe run
exactly and then appends: the safe change log is a prefix of the
aggressive one, every safe counter value is at most its aggressive value,
and outside the two aggressive-only font categories the values agree. -/
theorem c7_safe_subset_of_aggressive :
    AGGRESSIVE_RULES = SAFE_RULES ++ [simplify_css_aggressive] ∧
    ∀ (book : EpubBook) (files : List (String × FileContent)),
      (∃ tl, (run_repair AGGRESSIVE_RULES book files).2.changes =
        (run_repair SAFE_RULES book files).2.changes ++ tl) ∧
      (∀ k, (run_repair SAFE_RULES book files).2.counterGet k ≤
        (run_repair AGGRESSIVE_RULES book files).2.counterGet k) ∧
      (∀ k, k ≠ "css.removed_font_families" → k ≠ "css.removed_font_faces" →
        (run_repair AGGRESSIVE_RULES book files).2.counterGet k =
          (run_repair SAFE_RULES book files).2.counterGet k) := by
  refine ⟨rfl, fun book files => ?_⟩
  have hsplit : run_repair AGGRESSIVE_RULES book files =
      simplify_css_aggressive book (run_repair SAFE_RULES book files) := by
    unfold run_repair AGGRESSIVE_RULES runRules
    rw [List.foldl_append]
    rfl
  rw [hsplit]
  exact simplify_css_aggressive_reporter book (run_repair SAFE_RULES book files)

/-- Witness for C7 at a concrete book: the heading counter of the
aggressive run equals the safe run's. -/
theorem c7_safe_subset_of_aggressive_witness :
    (run_repair AGGRESSIVE_RULES (oneFileBook "w.xhtml") []).2.counterGet
        "headings.converted_fake_headings" =
      (run_repair SAFE_RULES (oneFileBook "w.xhtml") []).2.counterGet
        "headings.converted_fake_headings" :=
  (c7_safe_subset_of_aggressive.2 (oneFileBook "w.xhtml") []).2.2
    "headings.converted_fake_headings" (by decide) (by decide)

end EpubRepair

namespace EpubRepair

namespace XNode

/-- Structural induction over the nested `XNode` tree: to prove a property
of every node it suffices to prove it for a node given it for all its
children. -/
theorem ind (P : XNode → Prop)
    (h : ∀ n tg a tx tl ks, (∀ k ∈ ks, P k) → P (XNode.el n tg a tx tl ks)) :
    ∀ t, P t := by
  have aux : ∀ sz (t : XNode), sizeOf t ≤ sz → P t := by
    intro sz
    induction sz with
    | zero =>
      intro t ht
      cases t with
      | el n tg a tx tl ks => simp [XNode.el.sizeOf_spec] at ht
    | succ m ih =>
      intro t ht
      cases t with
      | el n tg a tx tl ks =>
        apply h
        intro k hk
        apply ih
        have h1 : sizeOf k < sizeOf ks := List.sizeOf_lt_of_mem hk
        simp only [XNode.el.sizeOf_spec] at ht
        omega
  exact fun t => aux (sizeOf t) t le_rfl

/-- `occursL` is `any occurs`. -/
theorem occursL_eq (i : Nat) (ks : List XNode) :
    occursL i ks = ks.any (fun k => occurs i k) := by
  induction ks with
  | nil => rfl
  | cons k tl ih => simp [occursL, ih]

/-- `allNodesL` is the bind of `allNodes`. -/
theorem allNodesL_eq (ks : List XNode) :
    allNodesL ks = ks.flatMap allNodes := by
  induction ks with
  | nil => rfl
  | cons k tl ih => simp [allNodesL, ih, List.flatMap_cons]

/-- `eraseIdL` filters out the erased id and recurses everywhere else. -/
theorem eraseIdL_eq (i : Nat) (ks : List XNode) :
    eraseIdL i ks = (ks.filter (fun k => !(k.nid = i))).map (eraseId i) := by
  induction ks with
  | nil => rfl
  | cons k tl ih =>
    by_cases h : k.nid = i
    · simp [eraseIdL, h, ih]
    · simp [eraseIdL, h, ih]

/-- `parentOfL` is the first parent found among the forest. -/
theorem parentOfL_isSome (i : Nat) (ks : List XNode)
    (h : ∃ k ∈ ks, (parentOf i k).isSome = true) :
    (parentOfL i ks).isSome = true := by
  induction ks with
  | nil => simp at h
  | cons k tl ih =>
    obtain ⟨k0, hk0, hsome⟩ := h
    rcases List.mem_cons.mp hk0 with h1 | h1
    · subst h1
      cases hp : parentOf i k0 with
      | none => rw [hp] at hsome; simp at hsome
      | some p => simp [parentOfL, hp, Option.orElse]
    · cases hp : parentOf i k with
      | none => simpa [parentOfL, hp, Option.orElse] using ih ⟨k0, h1, hsome⟩
      | some p => simp [parentOfL, hp, Option.orElse]

/-- The root is among a tree's nodes. -/
theorem self_mem_allNodes (t : XNode) : t ∈ allNodes t := by
  cases t with
  | el n tg a tx tl ks => simp [allNodes]

/-- Every listed node's id occurs in the tree. -/
theorem occurs_of_mem_allNodes :
    ∀ t : XNode, ∀ n ∈ allNodes t, occurs n.nid t = true := by
  intro t
  induction t using ind with
  | h n tg a tx tl ks ih =>
    intro m hm
    simp only [allNodes, List.mem_cons] at hm
    rcases hm with hm | hm
    · subst hm
      simp only [occurs, nid, Bool.or_eq_true, decide_eq_true_eq]
      exact Or.inl trivial
    · rw [allNodesL_eq, List.mem_flatMap] at hm
      obtain ⟨k, hk, hmk⟩ := hm
      have := ih k hk m hmk
      simp [occurs, occursL_eq, List.any_eq_true]
      exact Or.inr ⟨k, hk, this⟩

/-- An occurring id belongs to some listed node. -/
theorem mem_allNodes_of_occurs :
    ∀ t : XNode, ∀ j, occurs j t = true → ∃ m ∈ allNodes t, m.nid = j := by
  intro t
  induction t using ind with
  | h n tg a tx tl ks ih =>
    intro j hj
    simp only [occurs, Bool.or_eq_true, occursL_eq, List.any_eq_true] at hj
    rcases hj with hj | ⟨k, hk, hjk⟩
    · exact ⟨.el n tg a tx tl ks, self_mem_allNodes _, by
        simpa [nid] using of_decide_eq_true hj⟩
    · obtain ⟨m, hm, hmj⟩ := ih k hk j hjk
      refine ⟨m, ?_, hmj⟩
      simp only [allNodes, List.mem_cons, allNodesL_eq, List.mem_flatMap]
      exact Or.inr ⟨k, hk, hm⟩

/-- Nodes of a listed node are nodes of the tree. -/
theorem allNodes_trans :
    ∀ t : XNode, ∀ n ∈ allNodes t, ∀ m ∈ allNodes n, m ∈ allNodes t := by
  intro t
  induction t using ind with
  | h n tg a tx tl ks ih =>
    intro x hx m hm
    simp only [allNodes, List.mem_cons, allNodesL_eq, List.mem_flatMap] at hx ⊢
    rcases hx with hx | ⟨k, hk, hxk⟩
    · subst hx
      simpa [allNodes, allNodesL_eq] using hm
    · exact Or.inr ⟨k, hk, ih k hk x hxk m hm⟩

/-- Distinct ids name distinct listed nodes, so an id determines the
node. -/
theorem id_inj_of_wf {t : XNode} (hw : WFIds t) :
    ∀ n ∈ allNodes t, ∀ m ∈ allNodes t, n.nid = m.nid → n = m := by
  intro n hn m hm hid
  exact List.inj_on_of_nodup_map hw hn hm hid

/-- Erasing keeps the root id. -/
theorem nid_eraseId (i : Nat) (t : XNode) : (eraseId i t).nid = t.nid := by
  cases t; rfl

end XNode

end EpubRepair

namespace EpubRepair

namespace XNode

/-- Erasing an id removes every occurrence of it below the root. -/
theorem occurs_eraseId_self :
    ∀ t : XNode, ∀ i, occurs i (eraseId i t) = decide (t.nid = i) := by
  intro t
  induction t using ind with
  | h n tg a tx tl ks ih =>
    intro i
    by_cases hn : n = i
    · simp [eraseId, occurs, nid, hn]
    · have hr : decide ((XNode.el n tg a tx tl ks).nid = i) = false := by
        simp [nid, hn]
      rw [hr]
      simp only [eraseId, occurs]
      rw [Bool.or_eq_false_iff]
      constructor
      · simp [hn]
      · rw [occursL_eq, eraseIdL_eq, List.any_eq_false]
        intro k' hk'
        obtain ⟨k, hkmem, rfl⟩ := List.mem_map.mp hk'
        have hih := ih k (List.mem_of_mem_filter hkmem) i
        have hkf := List.of_mem_filter hkmem
        have hki : ¬ k.nid = i := by
          intro hki
          simp [hki] at hkf
        simp [hih, hki]

/-- Erasing never makes an id appear. -/
theorem occurs_of_occurs_eraseId :
    ∀ t : XNode, ∀ i j, occurs j (eraseId i t) = true → occurs j t = true := by
  intro t
  induction t using ind with
  | h n tg a tx tl ks ih =>
    intro i j hj
    simp only [eraseId, occurs, nid, eraseIdL_eq, occursL_eq, List.any_eq_true,
      Bool.or_eq_true] at hj ⊢
    rcases hj with hj | ⟨k', hk', hocc⟩
    · exact Or.inl hj
    · obtain ⟨k, hkmem, rfl⟩ := List.mem_map.mp hk'
      have hkm := List.mem_of_mem_filter hkmem
      exact Or.inr ⟨k, hkm, ih k hkm i j hocc⟩

/-- An id that occurs, and occurs under no node carrying the erased id,
still occurs after the erasure. -/
theorem occurs_eraseId_of_not_under :
    ∀ t : XNode, ∀ i j, occurs j t = true →
      (∀ n ∈ allNodes t, n.nid = i → occurs j n = false) →
      occurs j (eraseId i t) = true := by
  intro t
  induction t using ind with
  | h n tg a tx tl ks ih =>
    intro i j hj hunder
    simp only [occurs, Bool.or_eq_true, occursL_eq, List.any_eq_true] at hj
    simp only [eraseId, occurs, nid, eraseIdL_eq, occursL_eq, List.any_eq_true,
      Bool.or_eq_true]
    rcases hj with hj | ⟨k, hk, hocc⟩
    · exact Or.inl hj
    · have hkmem : k ∈ allNodes (XNode.el n tg a tx tl ks) := by
        simp only [allNodes, List.mem_cons, allNodesL_eq, List.mem_flatMap]
        exact Or.inr ⟨k, hk, self_mem_allNodes k⟩
      have hki : ¬ (k.nid = i) := by
        intro hki
        have h0 := hunder k hkmem hki
        rw [hocc] at h0
        simp at h0
      refine Or.inr ⟨eraseId i k, List.mem_map.mpr ⟨k, List.mem_filter.mpr
        ⟨hk, by simpa using hki⟩, rfl⟩, ?_⟩
      refine ih k hk i j hocc ?_
      intro m hm hmi
      refine hunder m ?_ hmi
      exact allNodes_trans _ k hkmem m hm

end XNode

end EpubRepair

namespace EpubRepair

namespace XNode

/-- Every node of the erased tree is the erasure image of a node of the
original tree (with the same id). -/
theorem mem_allNodes_eraseId :
    ∀ t : XNode, ∀ i, ∀ m ∈ allNodes (eraseId i t),
      ∃ m0 ∈ allNodes t, m = eraseId i m0 := by
  intro t
  induction t using ind with
  | h n tg a tx tl ks ih =>
    intro i m hm
    rw [show eraseId i (XNode.el n tg a tx tl ks)
        = XNode.el n tg a tx tl (eraseIdL i ks) from rfl] at hm
    simp only [allNodes, List.mem_cons, allNodesL_eq, List.mem_flatMap] at hm
    rcases hm with hm | ⟨k', hk', hmk⟩
    · exact ⟨XNode.el n tg a tx tl ks, self_mem_allNodes _, hm⟩
    · rw [eraseIdL_eq] at hk'
      obtain ⟨k, hkmem, rfl⟩ := List.mem_map.mp hk'
      obtain ⟨m0, hm0, rfl⟩ := ih k (List.mem_of_mem_filter hkmem) i m hmk
      refine ⟨m0, ?_, rfl⟩
      simp only [allNodes, List.mem_cons, allNodesL_eq, List.mem_flatMap]
      exact Or.inr ⟨k, List.mem_of_mem_filter hkmem, hm0⟩

/-- A non-root occurring id has a parent. -/
theorem parentOf_isSome_of_occurs :
    ∀ t : XNode, ∀ j, occurs j t = true → j ≠ t.nid →
      (parentOf j t).isSome = true := by
  intro t
  induction t using ind with
  | h n tg a tx tl ks ih =>
    intro j hj hroot
    simp only [occurs, Bool.or_eq_true, occursL_eq, List.any_eq_true] at hj
    rcases hj with hj | ⟨k, hk, hocc⟩
    · exact absurd (of_decide_eq_true hj).symm hroot
    · show (if ks.any (fun k => k.nid = j) then _ else parentOfL j ks).isSome = true
      by_cases hdirect : ks.any (fun k => k.nid = j) = true
      · simp [hdirect]
      · simp only [hdirect, Bool.false_eq_true, if_false]
        refine parentOfL_isSome j ks ⟨k, hk, ih k hk j hocc ?_⟩
        intro hkj
        have h2 : ks.any (fun k => k.nid = j) = false := by simpa using hdirect
        rw [List.any_eq_false] at h2
        have h3 := h2 k hk
        simp [hkj.symm] at h3

end XNode

end EpubRepair

namespace EpubRepair

open XNode

/-- In a well-formed tree without nested paragraphs, no node carrying one
paragraph's id has the other paragraph occurring below it. -/
theorem distinct_p_not_inside {t q x : XNode} (hw : WFIds t) (hnn : NoNestedP t)
    (hq : q ∈ allNodes t) (hx : x ∈ allNodes t)
    (hqp : q.tag = "p") (hxp : x.tag = "p") (hne : q.nid ≠ x.nid) :
    ∀ n ∈ allNodes t, n.nid = q.nid → occurs x.nid n = false := by
  intro n hn hnid
  have hnq : n = q := id_inj_of_wf hw n hn q hq hnid
  subst hnq
  cases hocc : occurs x.nid n with
  | false => rfl
  | true =>
    exfalso
    cases n with
    | el a b c d e ks =>
      simp only [occurs, Bool.or_eq_true, occursL_eq, List.any_eq_true] at hocc
      rcases hocc with hocc | ⟨k, hk, hocck⟩
      · exact hne ((of_decide_eq_true hocc).symm ▸ rfl)
      · obtain ⟨m, hm, hmid⟩ := mem_allNodes_of_occurs k x.nid hocck
        have hmk : m ∈ allNodesL (XNode.el a b c d e ks).kids := by
          simp only [kids, allNodesL_eq, List.mem_flatMap]
          exact ⟨k, hk, hm⟩
        have hmt : m ∈ allNodes t := by
          refine allNodes_trans t _ hn m ?_
          simp only [allNodes, List.mem_cons]
          exact Or.inr (by simpa [kids] using hmk)
        have hmx : m = x := id_inj_of_wf hw m hmt x hx hmid
        subst hmx
        exact hnn _ hn hqp m hmk hxp

end EpubRepair

namespace EpubRepair

open XNode

/-- The branch structure of pass 1 decides exactly "candidate and not
retained", with retention as the amended claim states it. -/
theorem pass1Decision_eq (t : XNode) (i : Nat) (p : XNode) :
    pass1Decision t i p = shouldRemoveC4 t i p := by
  simp only [pass1Decision, shouldRemoveC4, keptAmendedC4]
  by_cases hc : is_page_break_candidate p = true
  · simp only [hc, if_true, Bool.true_and]
    cases hns : nextSibOf p.nid t with
    | none =>
      cases hp : parentOf p.nid t with
      | none => simp
      | some par =>
        cases hci : childIdx par p.nid with
        | none => simp [hci]
        | some jj => simp [hci]
    | some nx =>
      by_cases hh : (nx.tag = "h1" || nx.tag = "h2") = true
      · by_cases hkw : kwAny (pyLower (pyStrip nx.text)) = true
        · simp [hh, hkw]
        · by_cases hi : i < 3
          · simp [hh, hkw, hi]
          · cases hp : parentOf p.nid t with
            | none => simp [hh, hkw, hi]
            | some par =>
              cases hci : childIdx par p.nid with
              | none => simp [hh, hkw, hi]
              | some jj => by_cases hj : jj < 3 <;> simp [hh, hkw, hi, hj]
      · have hh2 : (nx.tag = "h1" || nx.tag = "h2") = false := by simpa using hh
        cases hp : parentOf p.nid t with
        | none => simp [hh2]
        | some par =>
          cases hci : childIdx par p.nid with
          | none => simp [hh2, hci]
          | some jj => simp [hh2, hci]
  · have hc2 : is_page_break_candidate p = false := by simpa using hc
    simp [hc2]

end EpubRepair

namespace EpubRepair

open XNode

/-- A collecting fold over a boolean test is the filtered map. -/
theorem foldl_ite_append {α β : Type} (q : α → Bool) (f : α → β) :
    ∀ (l : List α) (acc : List β),
      l.foldl (fun acc x => if q x then acc ++ [f x] else acc) acc
        = acc ++ (l.filter q).map f := by
  intro l
  induction l with
  | nil => intro acc; simp
  | cons x xs ih =>
    intro acc
    by_cases hq : q x = true <;> simp [hq, ih, List.filter_cons]

/-- Entries of the enumeration of a duplicate-free list are determined by
their values. -/
theorem enum_inj_of_nodup {α : Type} {l : List α} (h : l.Nodup) {a b : Nat × α}
    (ha : a ∈ l.enum) (hb : b ∈ l.enum) (hab : a.2 = b.2) : a = b := by
  have ha2 := List.mem_enum_iff_get?.mp ha
  have hb2 := List.mem_enum_iff_get?.mp hb
  have hlen : a.1 < l.length := (List.get?_eq_some.mp ha2).1
  have h1 : a.1 = b.1 := by
    refine List.get?_inj hlen h ?_
    rw [ha2, hb2, hab]
  obtain ⟨i, x⟩ := a
  obtain ⟨j, y⟩ := b
  simp only at hab h1
  rw [hab, h1]

/-- Facts of the shape "j never occurs under a node with this id" survive
an erasure. -/
theorem under_facts_erase {t : XNode} (i j qnid : Nat)
    (h : ∀ n ∈ allNodes t, n.nid = qnid → occurs j n = false) :
    ∀ n ∈ allNodes (eraseId i t), n.nid = qnid → occurs j n = false := by
  intro n hn hnid
  obtain ⟨m0, hm0, rfl⟩ := mem_allNodes_eraseId t i n hn
  cases hocc : occurs j (eraseId i m0) with
  | false => rfl
  | true =>
    exfalso
    have h1 := occurs_of_occurs_eraseId m0 i j hocc
    have h2 := h m0 hm0 (by rw [← nid_eraseId i m0]; exact hnid)
    rw [h1] at h2
    simp at h2

/-- The removal loop of pass 1 only erases: an id occurring afterwards
occurred before. -/
theorem removeFold_mono (j : Nat) :
    ∀ (L : List XNode) (t : XNode) (c : Nat) (ch : Bool),
      occurs j (L.foldl (fun st p =>
        match st with
        | (t, c, ch) =>
          match parentOf p.nid t with
          | some _ => (eraseId p.nid t, c + 1, true)
          | none => (t, c, ch)) (t, c, ch)).1 = true →
      occurs j t = true := by
  intro L
  induction L with
  | nil => intro t c ch h; exact h
  | cons q L ih =>
    intro t c ch h
    simp only [List.foldl_cons] at h
    cases hp : parentOf q.nid t with
    | none => rw [hp] at h; exact ih t c ch h
    | some par =>
      rw [hp] at h
      exact occurs_of_occurs_eraseId t q.nid j (ih _ _ _ h)

/-- The removal loop of pass 1 on pairwise non-nested, non-root, occurring
nodes: it removes each listed id, counts every removal, and keeps any id
that occurs under none of the listed ids. -/
theorem removeFold_spec (t0 : XNode) :
    ∀ (L : List XNode) (t : XNode) (c : Nat) (ch : Bool),
      t.nid = t0.nid →
      (∀ q ∈ L, occurs q.nid t = true) →
      (∀ q ∈ L, q.nid ≠ t0.nid) →
      (∀ q1 ∈ L, ∀ q2 ∈ L, q1.nid ≠ q2.nid →
        ∀ n ∈ allNodes t, n.nid = q1.nid → occurs q2.nid n = false) →
      (L.map nid).Nodup →
      ((L.foldl (fun st p =>
          match st with
          | (t, c, ch) =>
            match parentOf p.nid t with
            | some _ => (eraseId p.nid t, c + 1, true)
            | none => (t, c, ch)) (t, c, ch)).2.1 = c + L.length ∧
       (∀ q ∈ L, occurs q.nid (L.foldl (fun st p =>
          match st with
          | (t, c, ch) =>
            match parentOf p.nid t with
            | some _ => (eraseId p.nid t, c + 1, true)
            | none => (t, c, ch)) (t, c, ch)).1 = false) ∧
       (∀ j, occurs j t = true →
        (∀ q ∈ L, ∀ n ∈ allNodes t, n.nid = q.nid → occurs j n = false) →
        occurs j (L.foldl (fun st p =>
          match st with
          | (t, c, ch) =>
            match parentOf p.nid t with
            | some _ => (eraseId p.nid t, c + 1, true)
            | none => (t, c, ch)) (t, c, ch)).1 = true)) := by
  intro L
  induction L with
  | nil =>
    intro t c ch h1 h2 h3 hH hnd
    refine ⟨rfl, by simp, fun j hj _ => hj⟩
  | cons q0 L ih =>
    intro t c ch h1 h2 h3 hH hnd
    have hq0occ : occurs q0.nid t = true := h2 q0 (List.mem_cons_self _ _)
    have hq0root : q0.nid ≠ t.nid := by
      rw [h1]; exact h3 q0 (List.mem_cons_self _ _)
    have hpsome : (parentOf q0.nid t).isSome = true :=
      parentOf_isSome_of_occurs t q0.nid hq0occ hq0root
    simp only [List.foldl_cons]
    cases hp : parentOf q0.nid t with
    | none => rw [hp] at hpsome; simp at hpsome
    | some par =>
      -- hypotheses for the tail on the erased tree
      have hne0 : ∀ q ∈ L, q0.nid ≠ q.nid := by
        intro q hq hqe
        simp only [List.map_cons, List.nodup_cons] at hnd
        exact hnd.1 (hqe ▸ List.mem_map_of_mem nid hq)
      have h1' : (eraseId q0.nid t).nid = t0.nid := by rw [nid_eraseId]; exact h1
      have h2' : ∀ q ∈ L, occurs q.nid (eraseId q0.nid t) = true := by
        intro q hq
        refine occurs_eraseId_of_not_under t q0.nid q.nid (h2 q (List.mem_cons_of_mem _ hq)) ?_
        exact hH q0 (List.mem_cons_self _ _) q (List.mem_cons_of_mem _ hq) (hne0 q hq)
      have h3' : ∀ q ∈ L, q.nid ≠ t0.nid :=
        fun q hq => h3 q (List.mem_cons_of_mem _ hq)
      have hH' : ∀ q1 ∈ L, ∀ q2 ∈ L, q1.nid ≠ q2.nid →
          ∀ n ∈ allNodes (eraseId q0.nid t), n.nid = q1.nid → occurs q2.nid n = false := by
        intro q1 hq1 q2 hq2 hne
        exact under_facts_erase q0.nid q2.nid q1.nid
          (hH q1 (List.mem_cons_of_mem _ hq1) q2 (List.mem_cons_of_mem _ hq2) hne)
      have hnd' : (L.map nid).Nodup := by
        simp only [List.map_cons, List.nodup_cons] at hnd
        exact hnd.2
      obtain ⟨ihc, ihrem, ihkeep⟩ := ih (eraseId q0.nid t) (c + 1) true h1' h2' h3' hH' hnd'
      refine ⟨by rw [ihc]; simp [List.length_cons]; omega, ?_, ?_⟩
      · intro q hq
        rcases List.mem_cons.mp hq with rfl | hq
        · -- q0 itself: erased now, never reintroduced
          cases hocc : occurs q.nid (L.foldl _ (eraseId q.nid t, c + 1, true)).1 with
          | false => rfl
          | true =>
            exfalso
            have h5 := removeFold_mono q.nid L (eraseId q.nid t) (c + 1) true hocc
            rw [occurs_eraseId_self t q.nid] at h5
            have := of_decide_eq_true h5
            exact hq0root this.symm
        · exact ihrem q hq
      · intro j hj hunder
        refine ihkeep j ?_ ?_
        · refine occurs_eraseId_of_not_under t q0.nid j hj ?_
          exact hunder q0 (List.mem_cons_self _ _)
        · intro q hq
          exact under_facts_erase q0.nid j q.nid (hunder q (List.mem_cons_of_mem _ hq))

end EpubRepair

namespace EpubRepair

open XNode

/-- C4 (amended): for a well-formed document without nested paragraphs
whose root is not a paragraph, pass 1 of the break classifier counts
exactly the page-break candidates that fail the implemented retention
rule, and a snapshot paragraph survives in the tree if and only if it is
not such a candidate.  The retention rule is `keptAmendedC4`: the
candidate immediately precedes an `h1`/`h2` AND (keyword heading, or among
the first three paragraphs of the document in flat order, or among the
first three children of its parent). -/
theorem c4_amended_retention_rule (t : XNode) (hw : WFIds t) (hnn : NoNestedP t)
    (hroot : t.tag ≠ "p") :
    (breaksPass1 t).2.1 =
      (((findAll (fun n => n.tag = "p") t).enum).filter
        (fun ip => shouldRemoveC4 t ip.1 ip.2)).length ∧
    ∀ ip ∈ (findAll (fun n => n.tag = "p") t).enum,
      occurs ip.2.nid (breaksPass1 t).1 = !(shouldRemoveC4 t ip.1 ip.2) := by
  set ps := findAll (fun n => n.tag = "p") t with hps
  have hps2 : ps = (allNodes t).filter (fun n => n.tag = "p") := rfl
  have hps_sub : ∀ q ∈ ps, q ∈ allNodes t := fun q hq =>
    List.mem_of_mem_filter (hps2 ▸ hq)
  have hps_tag : ∀ q ∈ ps, q.tag = "p" := by
    intro q hq
    rw [hps2] at hq
    have h1 := List.of_mem_filter hq
    simpa using h1
  have hps_subl : ps.Sublist (allNodes t) := hps2 ▸ List.filter_sublist _
  have hps_nodup_ids : (ps.map nid).Nodup := (hps_subl.map nid).nodup hw
  have hps_nodup : ps.Nodup := hps_nodup_ids.of_map
  have hcollect :
      ps.enum.foldl (fun acc ip => if pass1Decision t ip.1 ip.2 then acc ++ [ip.2] else acc) []
        = ((ps.enum.filter (fun ip => shouldRemoveC4 t ip.1 ip.2)).map Prod.snd) := by
    have hfun : (fun (acc : List XNode) (ip : Nat × XNode) =>
        if pass1Decision t ip.1 ip.2 then acc ++ [ip.2] else acc)
        = (fun acc ip => if shouldRemoveC4 t ip.1 ip.2 then acc ++ [Prod.snd ip] else acc) := by
      funext acc ip
      rw [pass1Decision_eq]
    rw [hfun, foldl_ite_append (fun ip => shouldRemoveC4 t ip.1 ip.2) Prod.snd ps.enum []]
    simp
  have hbp : breaksPass1 t =
      ((ps.enum.filter (fun ip => shouldRemoveC4 t ip.1 ip.2)).map Prod.snd).foldl
        (fun st p => match st with
          | (t, c, ch) => match parentOf p.nid t with
            | some _ => (eraseId p.nid t, c + 1, true)
            | none => (t, c, ch)) (t, 0, false) := by
    simp only [breaksPass1, ← hps, hcollect]
  set L := (ps.enum.filter (fun ip => shouldRemoveC4 t ip.1 ip.2)).map Prod.snd with hL
  have hLsub : ∀ q ∈ L, q ∈ ps := by
    intro q hq
    obtain ⟨ip, hip, rfl⟩ := List.mem_map.mp hq
    have h2 := List.mem_map_of_mem Prod.snd (List.mem_of_mem_filter hip)
    rwa [List.enum_map_snd] at h2
  have hLroot : ∀ q ∈ L, q.nid ≠ t.nid := by
    intro q hq h
    have hqa := hps_sub q (hLsub q hq)
    have hqt : q = t := id_inj_of_wf hw q hqa t (self_mem_allNodes t) h
    exact hroot (hqt ▸ hps_tag q (hLsub q hq))
  have hLnd : (L.map nid).Nodup := by
    have h1 : (ps.enum.filter (fun ip => shouldRemoveC4 t ip.1 ip.2)).Sublist ps.enum :=
      List.filter_sublist _
    have h2 : L.Sublist ps := by
      have := h1.map Prod.snd
      rwa [List.enum_map_snd] at this
    exact (h2.map nid).nodup hps_nodup_ids
  obtain ⟨hcount, hrem, hkeep⟩ := removeFold_spec t L t 0 false rfl
    (fun q hq => occurs_of_mem_allNodes t q (hps_sub q (hLsub q hq)))
    hLroot
    (fun q1 hq1 q2 hq2 hne => distinct_p_not_inside hw hnn
      (hps_sub q1 (hLsub q1 hq1)) (hps_sub q2 (hLsub q2 hq2))
      (hps_tag q1 (hLsub q1 hq1)) (hps_tag q2 (hLsub q2 hq2)) hne)
    hLnd
  constructor
  · rw [hbp, hcount, hL]
    simp [List.length_map]
  · intro ip hip
    have hip_ps : ip.2 ∈ ps := by
      have h2 := List.mem_map_of_mem Prod.snd hip
      rwa [List.enum_map_snd] at h2
    by_cases hdec : shouldRemoveC4 t ip.1 ip.2 = true
    · have hipf : ip ∈ ps.enum.filter (fun ip => shouldRemoveC4 t ip.1 ip.2) :=
        List.mem_filter.mpr ⟨hip, hdec⟩
      have hmem : ip.2 ∈ L := List.mem_map_of_mem Prod.snd hipf
      rw [hbp, hdec]
      simpa using hrem ip.2 hmem
    · have hdec2 : shouldRemoveC4 t ip.1 ip.2 = false := by simpa using hdec
      have hunder : ∀ q ∈ L, ∀ n ∈ allNodes t, n.nid = q.nid →
          occurs ip.2.nid n = false := by
        intro q hq
        have hne : q.nid ≠ ip.2.nid := by
          intro he
          have hq_eq : q = ip.2 := id_inj_of_wf hw q (hps_sub q (hLsub q hq))
            ip.2 (hps_sub ip.2 hip_ps) he
          obtain ⟨ip', hip', hsnd⟩ := List.mem_map.mp hq
          have hip'_enum := List.mem_of_mem_filter hip'
          have hip'_eq : ip' = ip :=
            enum_inj_of_nodup hps_nodup hip'_enum hip (by rw [hsnd, hq_eq])
          have h5 := List.of_mem_filter hip'
          rw [hip'_eq] at h5
          rw [h5] at hdec2
          simp at hdec2
        exact distinct_p_not_inside hw hnn (hps_sub q (hLsub q hq))
          (hps_sub ip.2 hip_ps) (hps_tag q (hLsub q hq)) (hps_tag ip.2 hip_ps) hne
      rw [hbp, hdec2]
      simpa using hkeep ip.2.nid (occurs_of_mem_allNodes t ip.2 (hps_sub ip.2 hip_ps)) hunder

/-- Witness for the amended C4 theorem at the counterexample document: its
ids are distinct, no paragraph nests inside another, the root is `html`,
and the instantiated conclusion evaluates. -/
theorem c4_amended_retention_rule_witness :
    WFIds c4Doc ∧ NoNestedP c4Doc ∧ c4Doc.tag ≠ "p" ∧
      ((breaksPass1 c4Doc).2.1 =
        (((findAll (fun n => n.tag = "p") c4Doc).enum).filter
          (fun ip => shouldRemoveC4 c4Doc ip.1 ip.2)).length ∧
       ∀ ip ∈ (findAll (fun n => n.tag = "p") c4Doc).enum,
         occurs ip.2.nid (breaksPass1 c4Doc).1 = !(shouldRemoveC4 c4Doc ip.1 ip.2)) :=
  ⟨by decide, by decide, by decide,
   c4_amended_retention_rule c4Doc (by decide) (by decide) (by decide)⟩

end EpubRepair

namespace EpubRepair

open XNode

/-- C5 (amended): the heading normalizer replaces a matched paragraph with
a heading whose level follows the keyword priority, preserving the text;
children are moved across in order with a non-empty tail appended once
more onto itself; attributes are all preserved except that the `class`
attribute is dropped in its entirety exactly when its value contains
`heading` (case-insensitive) — it is kept unchanged otherwise.  On the
spec example `<p class="heading1">Chapter One</p>` the whole rule yields
`<h1>Chapter One</h1>` with the class dropped (its value contains
`heading`); on `<p class="chapter">X<em>e</em>!</p>` it yields an `h2`
that keeps `class="chapter"` with the child tail doubled. -/
theorem c5_amended_heading_conversion :
    Disk.readXhtml (normalize_headings (oneFileBook "c5x.xhtml")
        (⟨[("c5x.xhtml", .xhtml c5ExampleDoc)], []⟩, Reporter.empty)).1 "c5x.xhtml" =
      some (.el 0 "html" [] "" "" [.el 1 "body" [] "" ""
        [.el 3 "h1" [] "Chapter One" "" []]]) ∧
    Disk.readXhtml (normalize_headings (oneFileBook "c5.xhtml")
        (⟨[("c5.xhtml", .xhtml c5Doc)], []⟩, Reporter.empty)).1 "c5.xhtml" =
      some (.el 0 "html" [] "" "" [.el 1 "body" [] "" ""
        [.el 4 "h2" [("class", "chapter")] "X" "" [.el 3 "em" [] "e" "!!" []]]]) ∧
    (∀ fid lvl e, (convert_to_heading_node fid e lvl).tag = "h" ++ toString lvl) ∧
    (∀ fid lvl e, (convert_to_heading_node fid e lvl).text = e.text) ∧
    (∀ fid lvl e, (convert_to_heading_node fid e lvl).attrs =
      e.attrs.filter fun kv => kv.1 ≠ "class" || !strContains (pyLower kv.2) "heading") ∧
    (∀ fid lvl e, (convert_to_heading_node fid e lvl).kids =
      e.kids.map fun c => if c.tail ≠ "" then
        .el c.nid c.tag c.attrs c.text (c.tail ++ c.tail) c.kids else c) ∧
    (∀ e, determine_heading_level e = 1 ↔
      (strContains (pyLower (attrD e "class")) "heading1" ||
       strContains (pyLower (attrD e "class")) "h1" ||
       strContains (pyLower (attrD e "class")) "title") = true) :=
  ⟨rfl, rfl, fun _ _ _ => rfl, fun _ _ _ => rfl, fun _ _ _ => rfl, fun _ _ _ => rfl,
   fun e => by
    unfold determine_heading_level
    constructor
    · intro h
      by_contra hc
      simp only [Bool.not_eq_true] at hc
      simp only [hc, Bool.false_eq_true, if_false] at h
      split at h <;> (try omega) <;> (split at h <;> omega)
    · intro h
      simp [h]⟩

end EpubRepair
